import Mathlib

set_option linter.unusedVariables false

/-!
Verification of the `ilu` traffic-signal repository against its
natural-language specification.

The Python sources are shallowly embedded: each relevant function is
translated into a Lean definition over explicit data types.  XML attribute
maps become association lists of strings, Python dictionaries become
association lists with first-key lookup and in-place override on update,
fallible code returns `Except String`, and Python floats are modelled as
exact rationals (`Rat`).
-/

/-! ## Python-semantics primitives -/

/-- Python `d[k]` on a dict: value of the first matching key, `KeyError`
when absent.  (Real Python dicts have unique keys, so first-match lookup
coincides with dict lookup.) -/
def pyLookup {α : Type} (k : String) (d : List (String × α)) : Except String α :=
  match d.lookup k with
  | some v => Except.ok v
  | none => Except.error ("KeyError: " ++ k)

/-- Python `d[k] = v`: override the value in place when the key exists,
append the binding otherwise. -/
def dictSet {α : Type} : List (String × α) → String → α → List (String × α)
  | [], k, v => [(k, v)]
  | (k0, v0) :: rest, k, v =>
      if k0 = k then (k0, v) :: rest else (k0, v0) :: dictSet rest k v

/-- Python `del d[k]`: remove the binding, `KeyError` when absent. -/
def pyDictDel {α : Type} : List (String × α) → String → Except String (List (String × α))
  | [], k => Except.error ("KeyError: " ++ k)
  | (k0, v0) :: rest, k =>
      if k0 = k then Except.ok rest
      else (pyDictDel rest k).map (fun r => (k0, v0) :: r)

/-- Dict-comprehension insert `{f k: g v for ...}` step: a later pair with an
existing key overrides the value in place, a new key is appended. -/
def dictInsert {κ α : Type} [DecidableEq κ] : List (κ × α) → κ × α → List (κ × α)
  | [], p => [p]
  | (k0, v0) :: rest, p =>
      if k0 = p.1 then (k0, p.2) :: rest else (k0, v0) :: dictInsert rest p

/-- Accumulate a decimal numeral; `none` on any non-digit character. -/
def digitsToNatAux (acc : Nat) : List Char → Option Nat
  | [] => some acc
  | c :: cs =>
      if c.isDigit then digitsToNatAux (acc * 10 + (c.toNat - 48)) cs else none

/-- Parse a non-empty all-digit character list as a natural number. -/
def decDigits : List Char → Option Nat
  | [] => none
  | l => digitsToNatAux 0 l

/-- Python `int(s)` on a string: optional sign followed by digits; anything
else raises `ValueError`.  (Python additionally strips whitespace and allows
a leading `+`; the inputs in scope are bare signed decimal numerals.) -/
def pyInt (s : String) : Except String Int :=
  match s.data with
  | '-' :: rest =>
      match decDigits rest with
      | some n => Except.ok (-(n : Int))
      | none => Except.error ("ValueError: invalid literal for int: " ++ s)
  | l =>
      match decDigits l with
      | some n => Except.ok (n : Int)
      | none => Except.error ("ValueError: invalid literal for int: " ++ s)

/-- Python string indexing `s[i]` with negative-index wraparound and
`IndexError` when out of range. -/
def pyStrIndex (s : String) (i : Int) : Except String Char :=
  if 0 ≤ i then
    if h2 : i.toNat < s.data.length then Except.ok (s.data.get ⟨i.toNat, h2⟩)
    else Except.error "IndexError: string index out of range"
  else
    if (-i).toNat ≤ s.data.length then
      if h3 : s.data.length - (-i).toNat < s.data.length then
        Except.ok (s.data.get ⟨s.data.length - (-i).toNat, h3⟩)
      else Except.error "IndexError: string index out of range"
    else Except.error "IndexError: string index out of range"

/-- Effectful map over a list in the `Except` monad, stopping at the first
error (the order in which a Python comprehension evaluates its body). -/
def exMapM {α β : Type} (f : α → Except String β) : List α → Except String (List β)
  | [] => Except.ok []
  | a :: as => do
      let b ← f a
      let bs ← exMapM f as
      Except.ok (b :: bs)

/-- Lexicographic code-point comparison of character lists, the order
Python uses when sorting strings. -/
def lexLe : List Char → List Char → Bool
  | [], _ => true
  | _ :: _, [] => false
  | a :: as, b :: bs =>
      if a.toNat < b.toNat then true
      else if b.toNat < a.toNat then false
      else lexLe as bs

/-- Python's `s1 <= s2` on strings. -/
def pyStrLe (a b : String) : Bool :=
  lexLe a.data b.data

/-- The order `sorted` uses on strings, as a proposition. -/
def pyStrLeRel (a b : String) : Prop :=
  pyStrLe a b = true

instance : DecidableRel pyStrLeRel :=
  fun a b => instDecidableEqBool (pyStrLe a b) true

/-- Python `sorted(someSet)`: the distinct elements in ascending order.
`List.dedup` keeps one copy of each element and `insertionSort` orders them. -/
def sortedSet (l : List String) : List String :=
  List.insertionSort pyStrLeRel l.dedup

/-- First-occurrence deduplication with an accumulator of already seen
elements; used to model iteration over a Python `set` (whose real iteration
order is unspecified — every property proved below is order-insensitive). -/
def dedupFirstAux {α : Type} [DecidableEq α] (seen : List α) : List α → List α
  | [] => []
  | a :: as => if a ∈ seen then dedupFirstAux seen as else a :: dedupFirstAux (a :: seen) as

/-- First-occurrence deduplication of a list. -/
def dedupFirst {α : Type} [DecidableEq α] (l : List α) : List α :=
  dedupFirstAux [] l

/-! ## Network model (`src/ilurl/networks/base.py`)

The `Network` object caches, straight from the parsed XML:
nodes (`junction` attribute maps), edges, connections, and the traffic-light
configurations registered with flow's `TrafficLightParams` in `__init__`
(one configuration per node id, with `programID` already incremented). -/

/-- A `junction` record; only the fields the derivations read. -/
structure NNode where
  id : String
  type : String
deriving DecidableEq, Repr

/-- An `edge` record; `to_` is the XML `to` attribute, the id of the node
the edge ends at (`to` is a Lean keyword). -/
structure NEdge where
  id : String
  to_ : String
deriving DecidableEq, Repr

/-- A `connection` record.  `tl` is the controlling traffic light's node id
(`c.get('tl')`, absent for uncontrolled connections) and `linkIndex` the
signal-bit position, both raw XML strings.  `from_` is the `from` edge id. -/
structure Conn where
  from_ : String
  tl : Option String
  linkIndex : Option String
deriving DecidableEq, Repr

/-- One `phase` child of a `tlLogic` element: raw `state` and `duration`
attribute strings. -/
structure TLPhase where
  state : String
  duration : String
deriving DecidableEq, Repr

/-- A traffic-light configuration as stored by `TrafficLightParams.add` in
`Network.__init__`: the XML `type` attribute, the integer `programID`
(incremented by one on registration), and the program's phase list. -/
structure TLConfig where
  type : String
  programID : Int
  phases : List TLPhase
deriving DecidableEq, Repr

/-- The `Network` state after `__init__`: raw record lists plus the
per-node traffic-light configurations (`traffic_lights.get_properties()`). -/
structure Network where
  nodes : List NNode
  edges : List NEdge
  connections : List Conn
  tlConfigs : List (String × TLConfig)
deriving DecidableEq, Repr

/-- `tls_ids`: ids of the nodes whose `type` is `traffic_light`. -/
def Network.tls_ids (N : Network) : List String :=
  (N.nodes.filter (fun n => n.type == "traffic_light")).map (fun n => n.id)

/-- Incoming approaches of one node: ids of the edges whose `to` field
equals the node id (the body of the `approaches` dict comprehension). -/
def Network.nodeApproaches (N : Network) (nid : String) : List String :=
  (N.edges.filter (fun e => e.to_ == nid)).map (fun e => e.id)

/-- The `approaches` property: node id to incoming approach ids, over all
traffic-light nodes. -/
def Network.approaches (N : Network) : List (String × List String) :=
  N.tls_ids.map (fun nid => (nid, N.nodeApproaches nid))

/-- The filter `fn` shared by `states` and `durations`: the configuration
must be `static` with `programID == 1`. -/
def progFn (cfg : TLConfig) : Bool :=
  cfg.type == "static" && cfg.programID == 1

/-- One node's entry of the `states` dict:
`[p['state'] for p in configs[nid]['phases'] if fn(configs[nid])]`.
Looking the node up in the configurations can raise `KeyError`; when the
configuration fails `fn` the filter rejects every element. -/
def Network.nodeStates (N : Network) (nid : String) : Except String (List String) := do
  let cfg ← pyLookup nid N.tlConfigs
  Except.ok (if progFn cfg then cfg.phases.map (fun p => p.state) else [])

/-- The `states` property: the per-node state lists over all traffic-light
nodes. -/
def Network.states (N : Network) : Except String (List (String × List String)) :=
  exMapM (fun nid => do Except.ok (nid, ← N.nodeStates nid)) N.tls_ids

/-- One node's entry of the `durations` dict:
`[int(p['duration']) for p in configs[nid]['phases'] if fn(configs[nid])]`.
The comprehension's filter runs before `int`, so a rejected configuration
parses nothing. -/
def Network.nodeDurations (N : Network) (nid : String) : Except String (List Int) := do
  let cfg ← pyLookup nid N.tlConfigs
  if progFn cfg then exMapM (fun p => pyInt p.duration) cfg.phases else Except.ok []

/-- The `durations` property over all traffic-light nodes. -/
def Network.durations (N : Network) : Except String (List (String × List Int)) :=
  exMapM (fun nid => do Except.ok (nid, ← N.nodeDurations nid)) N.tls_ids

/-- The `links` dict of `phases`: the node's controlled connections
(`c.get('tl') == nid and 'linkIndex' in c`) keyed by `int(linkIndex)` with
value the `from` edge id; a duplicate link index overrides in place. -/
def connLink (c : Conn) : Except String (Int × String) := do
  Except.ok (← pyInt (c.linkIndex.getD ""), c.from_)

def Network.nodeLinks (N : Network) (nid : String) : Except String (List (Int × String)) := do
  let cs := N.connections.filter (fun c => c.tl == some nid && c.linkIndex.isSome)
  let pairs ← exMapM connLink cs
  Except.ok (pairs.foldl dictInsert [])

/-- The set comprehension of `phases` for one state string:
`{eid for lnk, eid in links.items() if state[lnk] in ('G', 'g')}`,
returned as Python's `sorted(components)`.  Every link's bit is read, so an
out-of-range index raises even for a non-green link. -/
def linkBit (st : String) (p : Int × String) : Except String (Char × String) := do
  Except.ok (← pyStrIndex st p.1, p.2)

def greenSet (links : List (Int × String)) (st : String) : Except String (List String) := do
  let bits ← exMapM (linkBit st) links
  Except.ok (sortedSet ((bits.filter (fun q => q.1 == 'G' || q.1 == 'g')).map (fun q => q.2)))

/-- The indexing loop of `phases`: walk the state strings keeping a running
phase counter `i`; a state with a non-empty green set is assigned the next
index, an all-red/yellow state is skipped without consuming an index. -/
def phaseFold (links : List (Int × String)) : List String → Nat → Except String (List (Nat × List String))
  | [], _ => Except.ok []
  | st :: rest, i => do
      let comp ← greenSet links st
      if comp.isEmpty then phaseFold links rest i
      else do
        let tail ← phaseFold links rest (i + 1)
        Except.ok ((i, comp) :: tail)

/-- One node's entry of the `phases` dict: its states (via the `states`
property), its link map, and the indexing loop. -/
def Network.nodePhases (N : Network) (nid : String) : Except String (List (Nat × List String)) := do
  let sts ← N.nodeStates nid
  let links ← N.nodeLinks nid
  phaseFold links sts 0

/-- The `phases` property: the whole `states` dict is materialised first
(the source accesses `self.states[nid]` inside the loop), then each
traffic-light node gets its indexed phase list. -/
def Network.phases (N : Network) : Except String (List (String × List (Nat × List String))) := do
  let stsMap ← N.states
  exMapM (fun nid => do
    let sts ← pyLookup nid stsMap
    let links ← N.nodeLinks nid
    Except.ok (nid, ← phaseFold links sts 0)) N.tls_ids

/-! ## Concrete instance: the intersection network of the docstrings -/

/-- The single-intersection network used throughout the source docstrings:
node `247123161` with four incoming approaches, ten controlled connections
(signal bits 0–9), and the static program-1 state list
`['GGrrrGGrrr', 'yyrrryyrrr', 'rrGGGrrGGG', 'rryyyrryyy']` with durations
`[39, 6, 39, 6]`. -/
def netIntersection : Network where
  nodes := [⟨"247123161", "traffic_light"⟩]
  edges := [⟨"-238059324", "247123161"⟩, ⟨"-238059328", "247123161"⟩,
            ⟨"309265401", "247123161"⟩, ⟨"383432312", "247123161"⟩]
  connections :=
    [⟨"-238059324", some "247123161", some "0"⟩,
     ⟨"-238059324", some "247123161", some "1"⟩,
     ⟨"-238059328", some "247123161", some "2"⟩,
     ⟨"-238059328", some "247123161", some "3"⟩,
     ⟨"-238059328", some "247123161", some "4"⟩,
     ⟨"383432312", some "247123161", some "5"⟩,
     ⟨"383432312", some "247123161", some "6"⟩,
     ⟨"309265401", some "247123161", some "7"⟩,
     ⟨"309265401", some "247123161", some "8"⟩,
     ⟨"309265401", some "247123161", some "9"⟩]
  tlConfigs :=
    [("247123161",
      ⟨"static", 1,
       [⟨"GGrrrGGrrr", "39"⟩, ⟨"yyrrryyrrr", "6"⟩,
        ⟨"rrGGGrrGGG", "39"⟩, ⟨"rryyyrryyy", "6"⟩]⟩)]

/-! ## Scenario loaders (`src/ilurl/scenarios/base.py`)

An already-parsed XML document is modelled as the map from each target
path (the argument of `root.findall`) to its document-order list of
matching elements; each element carries its attribute map and its child
elements grouped by tag.  The filesystem is a map from file paths to
parsed documents; a path that is absent fails the `os.path.isfile` test. -/

/-- A parsed XML element: its attribute map and its children (tag and
attribute map, in document order). -/
structure XElem where
  attrib : List (String × String)
  children : List (String × List (String × String))
deriving DecidableEq, Repr

/-- A parsed XML document, keyed by `findall` target path. -/
structure XmlDoc where
  elems : List (String × List XElem)
deriving DecidableEq, Repr

/-- `root.findall(target)`: the matching elements, empty when the document
holds none. -/
def XmlDoc.findall (doc : XmlDoc) (target : String) : List XElem :=
  (doc.elems.lookup target).getD []

/-- `elem.findall(tag)` on child elements: the attribute maps of the
children carrying that tag, in document order. -/
def XElem.childAttribs (e : XElem) (tag : String) : List (List (String × String)) :=
  (e.children.filter (fun c => c.1 == tag)).map (fun c => c.2)

/-- The filesystem visible to the loaders. -/
abbrev FS := List (String × XmlDoc)

/-- The networks directory `f'{ILURL_HOME}/data/networks/'`.  The
environment-dependent home prefix is abstracted to a fixed string; only the
construction of the per-network suffix matters to the claims. -/
def DIR : String := "data/networks/"

/-- `get_path`: `os.path.join(DIR, f'{network_id}/{network_id}.{file_type}.xml')`.
`DIR` ends in a slash, so the join is plain concatenation. -/
def get_path (network_id file_type : String) : String :=
  DIR ++ network_id ++ "/" ++ network_id ++ "." ++ file_type ++ ".xml"

/-- A value inside an emitted attribute mapping: the raw attribute string,
a child-element list (attached under `{child_key}s`), or a number written by
the `get_edges` post-processing. -/
inductive AVal where
  | s : String → AVal
  | dicts : List (List (String × String)) → AVal
  | q : Rat → AVal
  | i : Int → AVal
deriving DecidableEq, Repr

/-- An entry emitted by `get_generic_element`: the bare string value of the
`key` attribute, or the element's (possibly extended) attribute mapping. -/
inductive GElem where
  | str : String → GElem
  | attrs : List (String × AVal) → GElem
deriving DecidableEq, Repr

/-- Does the element carry the `ignore` attribute?  With `ignore=None`,
`None not in elem.attrib` always passes (no string key equals `None`). -/
def ignoreHit (ignore : Option String) (e : XElem) : Bool :=
  match ignore with
  | none => false
  | some ig => (e.attrib.lookup ig).isSome

/-- The attribute-mapping entry for one element: `elem.attrib`, extended
under `f'{child_key}s'` with the child attribute maps when a child tag is
given (a dict update, overriding an attribute of the same name in place). -/
def attrsEntry (child_key : Option String) (e : XElem) : GElem :=
  let base := e.attrib.map (fun p => (p.1, AVal.s p.2))
  match child_key with
  | none => GElem.attrs base
  | some c => GElem.attrs (dictSet base (c ++ "s") (AVal.dicts (e.childAttribs c)))

/-- The element loop of `get_generic_element`.  A skipped element emits
nothing.  When `key` names an attribute the element carries, the bare string
is appended — and a subsequent `elements[-1][f'{child_key}s'] = ...` is an
item assignment on a `str`, a `TypeError`.  Otherwise the attribute mapping
is appended, extended with the child list when a child tag is given. -/
def ggeFold (ignore key child_key : Option String) : List XElem → Except String (List GElem)
  | [] => Except.ok []
  | e :: es =>
      if ignoreHit ignore e then ggeFold ignore key child_key es
      else do
        let entry ← match key with
          | some k =>
              match e.attrib.lookup k with
              | some v =>
                  match child_key with
                  | some _ =>
                      Except.error "TypeError: str object does not support item assignment"
                  | none => Except.ok (GElem.str v)
              | none => Except.ok (attrsEntry child_key e)
          | none => Except.ok (attrsEntry child_key e)
        let rest ← ggeFold ignore key child_key es
        Except.ok (entry :: rest)

/-- `get_generic_element`: locate the file at `get_path(network_id,
file_type)`; a missing file yields the empty list; otherwise process the
elements matching `target` in document order. -/
def get_generic_element (fs : FS) (network_id target : String)
    (file_type : String := "net") (ignore : Option String := none)
    (key : Option String := none) (child_key : Option String := none) :
    Except String (List GElem) :=
  match fs.lookup (get_path network_id file_type) with
  | none => Except.ok []
  | some doc => ggeFold ignore key child_key (doc.findall target)

/-- Generic single-character split keeping empty fields, the behaviour of
Python's `s.split(sep)` for a one-character separator. -/
def splitChAux (sep : Char) (cur : List Char) : List Char → List (List Char)
  | [] => [cur.reverse]
  | c :: cs =>
      if c = sep then cur.reverse :: splitChAux sep [] cs
      else splitChAux sep (c :: cur) cs

/-- Python `s.split(' ')`. -/
def pySplitSpace (s : String) : List String :=
  (splitChAux ' ' [] s.data).map (fun l => String.mk l)

/-- `set(routes)` demands hashable members: an extractor entry that fell
back to the full attribute mapping (a `dict`) raises `TypeError`. -/
def routeStr : GElem → Except String String
  | GElem.str s => Except.ok s
  | GElem.attrs _ => Except.error "TypeError: unhashable type"

/-- The pure tail of `get_routes`: deduplicate the route strings
(`set(routes)` — its iteration order is unspecified in CPython and modelled
here as first-occurrence order; every property proved below is insensitive
to it), split each into edge ids (`rou.split(' ')`), take the starting
edges (`{rou[0] for rou in routes}`; a split is never empty, so `rou[0]`
always exists), group by starting edge, and give each member of a group the
uniform probability `1 / len(rou)`. -/
def routeSplits (strs : List String) : List (List String) :=
  (dedupFirst strs).map pySplitSpace

/-- The starting edges `{rou[0] for rou in routes}`. -/
def routeKeys (routes : List (List String)) : List String :=
  dedupFirst (routes.map (fun r => r.headD ""))

/-- The group of routes starting at `k`. -/
def routeGrp (routes : List (List String)) (k : String) : List (List String) :=
  routes.filter (fun r => r.headD "" == k)

/-- One origin's `(route, probability)` list: `[(r, 1 / len(rou)) for r in
rou]` with `rou` the origin's group. -/
def prsOf (strs : List String) (k : String) : List (List String × Rat) :=
  (routeGrp (routeSplits strs) k).map
    (fun r => (r, (1 : Rat) / ((routeGrp (routeSplits strs) k).length : Rat)))

/-- The grouped `(route, probability)` map. -/
def routeGroups (strs : List String) : List (String × List (List String × Rat)) :=
  (routeKeys (routeSplits strs)).map (fun k => (k, prsOf strs k))

/-- `get_routes`: collect the `edges` attribute of every `vehicle/route`
element of the `rou` file, then deduplicate, group by origin and assign
uniform probabilities. -/
def get_routes (fs : FS) (network_id : String) :
    Except String (List (String × List (List String × Rat))) := do
  let raw ← get_generic_element fs network_id "vehicle/route" "rou" none (some "edges") none
  let strs ← exMapM routeStr raw
  Except.ok (routeGroups strs)

/-- All-digit parse that treats the empty list as `0`; used for the two
sides of the decimal point. -/
def decDigitsOrZero : List Char → Option Nat
  | [] => some 0
  | l => decDigits l

/-- Python `float(s)` restricted to the plain signed decimal numerals the
network files contain (`"13.89"`, `"20"`, `".5"`, `"13."`); anything else
raises `ValueError`. -/
def pyFloatQ (s : String) : Except String Rat :=
  let body : List Char → Except String Rat := fun l =>
    match splitChAux '.' [] l with
    | [ip] =>
        match decDigits ip with
        | some n => Except.ok (n : Rat)
        | none => Except.error ("ValueError: could not convert string to float: " ++ s)
    | [ip, fp] =>
        if ip.isEmpty && fp.isEmpty then
          Except.error ("ValueError: could not convert string to float: " ++ s)
        else
          match decDigitsOrZero ip, decDigitsOrZero fp with
          | some n, some m =>
              Except.ok ((n : Rat) + (m : Rat) / ((10 : Rat) ^ fp.length))
          | _, _ => Except.error ("ValueError: could not convert string to float: " ++ s)
    | _ => Except.error ("ValueError: could not convert string to float: " ++ s)
  match s.data with
  | '-' :: rest => (body rest).map (fun r => -r)
  | l => body l

/-- Python `max(list)`: the first element folded with pairwise max,
`ValueError` on an empty list. -/
def pyMax : List Rat → Except String Rat
  | [] => Except.error "ValueError: max of empty sequence"
  | a :: as => Except.ok (as.foldl max a)

/-- `get_edges`: extract the `edge` elements — of the hard-coded
`'intersection'` network, not of `network_id` — skipping internal edges
(those carrying a `function` attribute) and attaching their `lane`
children; then replace the lane list by aggregate `speed` (max lane speed),
`length` (max lane length) and `numLanes` fields. -/
def get_edges (fs : FS) (network_id : String) :
    Except String (List (List (String × AVal))) := do
  let raw ← get_generic_element fs "intersection" "edge" "net" (some "function") none (some "lane")
  exMapM (fun g => match g with
    | GElem.str _ => Except.error "TypeError: string indices"
    | GElem.attrs m => do
        let lanes ← match ← pyLookup "lanes" m with
          | AVal.dicts ds => Except.ok ds
          | _ => Except.error "TypeError: not a lane list"
        let speed ← pyMax (← exMapM (fun ln => do pyFloatQ (← pyLookup "speed" ln)) lanes)
        let length ← pyMax (← exMapM (fun ln => do pyFloatQ (← pyLookup "length" ln)) lanes)
        let m := dictSet m "speed" (AVal.q speed)
        let m := dictSet m "length" (AVal.q length)
        let m := dictSet m "numLanes" (AVal.i lanes.length)
        pyDictDel m "lanes") raw

/-! ## Batch merge (`src/jobs/rollouts.py`, `concat`)

Rollout evaluations are JSON objects; their values are modelled by `PV`.
`concat` never looks inside a list or mapping value — it only tests
`isinstance` and appends the value whole — so list and mapping payloads are
modelled as atoms carrying an identifying tag, which preserves exactly the
distinctions `concat` can observe.  (Python's numeric `bool` — where
`True == 1` — is outside the model; the merged fields are strings, numbers,
lists and objects.) -/

/-- A JSON-loaded Python value, with opaque list/mapping payloads. -/
inductive PV where
  | i : Int → PV
  | s : String → PV
  | null : PV
  | lst : Int → PV
  | dct : Int → PV
deriving DecidableEq, Repr

/-- `isinstance(v, list) or isinstance(v, dict)`. -/
def PV.isAppend : PV → Bool
  | PV.lst _ => true
  | PV.dct _ => true
  | _ => false

/-- Python `d.pop(k)`: the value and the remaining dict, `KeyError` when
the key is absent. -/
def pyPop (k : String) (d : List (String × PV)) :
    Except String (PV × List (String × PV)) :=
  match d.lookup k with
  | some v => Except.ok (v, d.filter (fun p => !(p.1 == k)))
  | none => Except.error ("KeyError: " ++ k)

/-- The `concat` accumulator (`result = defaultdict(list)`), split by the
three kinds of entries it ever holds: the `'id'` list, scalar fields, and
append fields (per experiment index, a `defaultdict(list)` keyed by rollout
id). -/
structure CState where
  ids : List PV
  scalars : List (String × PV)
  aggs : List (String × List (List (PV × List PV)))
deriving DecidableEq, Repr

/-- `result[k][ex_idx][qid].append(v)` on the inner `defaultdict(list)`:
append under the rollout id, creating the empty list on first use. -/
def ddAppend : List (PV × List PV) → PV → PV → List (PV × List PV)
  | [], q, v => [(q, [v])]
  | (q0, l) :: rest, q, v =>
      if q0 = q then (q0, l ++ [v]) :: rest else (q0, l) :: ddAppend rest q v

/-- One `(k, v)` item of a rollout, folded into the accumulator.

Append values: `result[k]` (a `defaultdict` access, so a fresh `[]` when the
key is new) is extended with a fresh inner `defaultdict` exactly when
`ex_idx` equals its length, then `result[k][ex_idx][qid].append(v)`.
Reaching this branch when `result[k]` is the `'id'` list or a scalar makes
Python raise (`len`/indexing/`.append` on a non-list), modelled as an error.

Scalar values: `k in result` compares against the stored value and a
mismatch raises `ValueError`; comparing against the `'id'` list or an
aggregate list (which never equals a scalar) likewise raises; a new key is
assigned. -/
def fieldStep (exIdx : Nat) (qid : PV) (st : CState) (k : String) (v : PV) :
    Except String CState :=
  if v.isAppend then
    if k = "id" ∨ (st.scalars.lookup k).isSome then
      Except.error ("TypeError: object at key " ++ k ++ " is not a list of tables")
    else
      let cur := (st.aggs.lookup k).getD []
      let cur := if exIdx = cur.length then cur ++ [[]] else cur
      if h : exIdx < cur.length then
        Except.ok { st with
          aggs := dictSet st.aggs k (cur.set exIdx (ddAppend (cur.get ⟨exIdx, h⟩) qid v)) }
      else Except.error "IndexError: list index out of range"
  else
    if k = "id" then Except.error ("ValueError: key " ++ k ++ " should match")
    else
      match st.scalars.lookup k with
      | some w =>
          if w = v then Except.ok st
          else Except.error ("ValueError: key " ++ k ++ " should match")
      | none =>
          if (st.aggs.lookup k).isSome then
            Except.error ("ValueError: key " ++ k ++ " should match")
          else Except.ok { st with scalars := dictSet st.scalars k v }

/-- Fold the remaining items of one rollout, in dict order. -/
def foldFields (exIdx : Nat) (qid : PV) : CState → List (String × PV) → Except String CState
  | st, [] => Except.ok st
  | st, (k, v) :: rest => do foldFields exIdx qid (← fieldStep exIdx qid st k v) rest

/-- One iteration of `concat`'s outer loop: pop `id` and `rollout`, register
the experiment id when new, and fold the remaining items at the experiment's
index in `result['id']`. -/
def concatStep (st : CState) (qtb : List (String × PV)) : Except String CState := do
  let (exid, r1) ← pyPop "id" qtb
  let (qid, r2) ← pyPop "rollout" r1
  let ids := if exid ∈ st.ids then st.ids else st.ids ++ [exid]
  foldFields (ids.indexOf exid) qid { st with ids := ids } r2

/-- Fold all evaluations. -/
def concatFold : CState → List (List (String × PV)) → Except String CState
  | st, [] => Except.ok st
  | st, e :: es => do concatFold (← concatStep st e) es

/-- `concat(evaluations)`. -/
def concat (evals : List (List (String × PV))) : Except String CState :=
  concatFold ⟨[], [], []⟩ evals

/-! ## Experiment runner (`src/ilurl/core/experiment.py`)

Only `__init__` and `_is_save_step` are in scope.  The externally supplied
environment is the collaborator object of the spec's section 6. -/

/-- The simulation-parameters collaborator. -/
structure SimParams where
  sim_step : Rat
  emission_path : Option String
deriving DecidableEq, Repr

/-- The environment collaborator: an optional `cycle_time` attribute, the
simulation parameters, and the `duration` attribute `_is_save_step` reads. -/
structure Env where
  cycle_time : Option Rat
  sim_params : SimParams
  duration : Rat
deriving DecidableEq, Repr

/-- The `Experiment` object: exactly the attributes `__init__` assigns
(`env`, `train`, `dir_path`, `Qs`, `cycle`, `save_step`); no method ever
assigns any other attribute on `self`. -/
structure Experiment where
  env : Env
  train : Bool
  dir_path : String
  Qs : Option (List PV)
  cycle : Option Rat
  save_step : Rat
deriving DecidableEq, Repr

/-- `Experiment.__init__`: validation mode demands policies; `self.cycle`
falls back to `None` and `self.save_step` to `1 / sim_step` when the
environment has no `cycle_time`; a zero step size is Python's
`ZeroDivisionError`. -/
def expInit (env : Env) (dir_path : String) (train : Bool) (policies : Option (List PV)) :
    Except String Experiment :=
  if !train && policies.isNone then
    Except.error "ValueError: In validation mode an array of policies must be provided"
  else
    let sim_step := env.sim_params.sim_step
    if sim_step = 0 then Except.error "ZeroDivisionError: division by zero"
    else Except.ok
      { env := env, train := train, dir_path := dir_path, Qs := policies,
        cycle := env.cycle_time,
        save_step := (env.cycle_time.getD 1) / sim_step }

/-- An attribute value of the `Experiment` object. -/
inductive ExAttr where
  | aEnv : Env → ExAttr
  | aTrain : Bool → ExAttr
  | aDir : String → ExAttr
  | aQs : Option (List PV) → ExAttr
  | aCycle : Option Rat → ExAttr
  | aStep : Rat → ExAttr
deriving DecidableEq, Repr

/-- Python attribute lookup on the `Experiment` object: the six attributes
`__init__` assigns, `AttributeError` for anything else — in particular for
`step_counter`, which no method of the class ever sets. -/
def Experiment.pyAttr (e : Experiment) (name : String) : Except String ExAttr :=
  if name = "env" then Except.ok (ExAttr.aEnv e.env)
  else if name = "train" then Except.ok (ExAttr.aTrain e.train)
  else if name = "dir_path" then Except.ok (ExAttr.aDir e.dir_path)
  else if name = "Qs" then Except.ok (ExAttr.aQs e.Qs)
  else if name = "cycle" then Except.ok (ExAttr.aCycle e.cycle)
  else if name = "save_step" then Except.ok (ExAttr.aStep e.save_step)
  else Except.error ("AttributeError: Experiment object has no attribute " ++ name)

/-- A numeric attribute value, for use in arithmetic. -/
def ExAttr.asNum : ExAttr → Except String Rat
  | ExAttr.aStep r => Except.ok r
  | ExAttr.aCycle (some r) => Except.ok r
  | _ => Except.error "TypeError: unsupported operand type"

/-- Python `a % b` on floats: `a - b * floor(a / b)`. -/
def pyFMod (a b : Rat) : Rat :=
  a - b * ((a / b).floor : Rat)

/-- `Experiment._is_save_step`: with a cycle time, test `env.duration == 0`;
without one, evaluate `self.step_counter % self.save_step == 0` — whose
attribute lookup fails. -/
def Experiment.isSaveStep (self : Experiment) : Except String Bool :=
  match self.cycle with
  | some _ => Except.ok (decide (self.env.duration = 0))
  | none => do
      let a ← self.pyAttr "step_counter"
      let n ← a.asNum
      Except.ok (decide (pyFMod n self.save_step = 0))

/-! ## Concrete instances and auxiliary definitions -/

/-- The net file of the `intersection` network: one edge `edgeI` with a
single lane. -/
def docIntersectionNet : XmlDoc where
  elems := [("edge",
    [⟨[("id", "edgeI"), ("from", "nI0"), ("to", "nI1")],
      [("lane", [("id", "edgeI_0"), ("speed", "20"), ("length", "100")])]⟩])]

/-- The net file of the `grid` network: one edge `edgeG` with a single
lane. -/
def docGridNet : XmlDoc where
  elems := [("edge",
    [⟨[("id", "edgeG"), ("from", "nG0"), ("to", "nG1")],
      [("lane", [("id", "edgeG_0"), ("speed", "30"), ("length", "200")])]⟩])]

/-- A filesystem holding both networks' net files at their own paths. -/
def fsTwoNets : FS :=
  [(get_path "intersection" "net", docIntersectionNet),
   (get_path "grid" "net", docGridNet)]

/-- A network whose traffic-light node has no registered program at all:
the spec promises an empty result, the code raises `KeyError`. -/
def netNoProg : Network where
  nodes := [⟨"n1", "traffic_light"⟩]
  edges := []
  connections := []
  tlConfigs := []

/-- A network whose node carries a program that is not static/program-1. -/
def netOtherProg : Network where
  nodes := [⟨"n2", "traffic_light"⟩]
  edges := []
  connections := []
  tlConfigs := [("n2", ⟨"static", 2, [⟨"G", "5"⟩]⟩)]

/-- An element with an `id` attribute and a `lane` child. -/
def docC7XElem : XElem where
  attrib := [("id", "e1"), ("from", "a"), ("to", "b")]
  children := [("lane", [("id", "e1_0"), ("speed", "10")])]

/-- A one-element `edge` document holding `docC7XElem`. -/
def docC7 : XmlDoc where
  elems := [("edge", [docC7XElem])]

/-- The attribute mapping emitted for `docC7XElem` with child tag `lane`. -/
def mC7 : List (String × AVal) :=
  [("id", AVal.s "e1"), ("from", AVal.s "a"), ("to", AVal.s "b"),
   ("lanes", AVal.dicts [[("id", "e1_0"), ("speed", "10")]])]

/-- The filesystem holding `docC7` for network `n7`. -/
def fsC7 : FS := [(get_path "n7" "net", docC7)]

/-- An environment without a cycle time. -/
def envC10 : Env where
  cycle_time := none
  sim_params := { sim_step := 1, emission_path := none }
  duration := 0

/-- The experiment object `__init__` builds from `envC10`. -/
def expC10 : Experiment where
  env := envC10
  train := true
  dir_path := "data/emissions/"
  Qs := none
  cycle := none
  save_step := (Option.getD none 1 : Rat) / envC10.sim_params.sim_step

/-- Rejoin split fields with the separator; the inverse direction of
`splitChAux`. -/
def joinSep (sep : Char) : List (List Char) → List Char
  | [] => []
  | [x] => x
  | x :: xs => x ++ sep :: joinSep sep xs

/-- A `vehicle/route` element with the given `edges` attribute. -/
def routeElem (edges : String) : XElem where
  attrib := [("edges", edges)]
  children := []

/-- A routes file with four route elements, one a duplicate: origins `A`
(two distinct routes) and `D` (one route). -/
def docC4 : XmlDoc where
  elems := [("vehicle/route",
    [routeElem "A B", routeElem "A C", routeElem "D E", routeElem "A B"])]

/-- The filesystem holding `docC4` for network `net4`. -/
def fsC4 : FS := [(get_path "net4" "rou", docC4)]

/-- The route strings extracted from `docC4`. -/
def strsC4 : List String := ["A B", "A C", "D E", "A B"]

/-- A network whose single controlled connection originates from an edge
id (`ghost`) that is not an edge of the network at all, hence not an
incoming approach of the node. -/
def netBadConn : Network where
  nodes := [⟨"n1", "traffic_light"⟩]
  edges := []
  connections := [⟨"ghost", some "n1", some "0"⟩]
  tlConfigs := [("n1", ⟨"static", 1, [⟨"G", "5"⟩]⟩)]

/-- The list stored for rollout id `q` in an inner `defaultdict(list)`
(`[]` when the key was never touched). -/
def ddGet (d : List (PV × List PV)) (q : PV) : List PV :=
  (d.lookup q).getD []

/-- Does the aggregate for key `k` hold `v` under rollout id `q` at
experiment index 0? -/
def aggHas (st : CState) (k : String) (q v : PV) : Bool :=
  match st.aggs.lookup k with
  | some (d :: _) => decide (v ∈ ddGet d q)
  | _ => false

/-- Rollout 0 of experiment `x`: scalar `cycle`, list-valued `rewards`. -/
def evalC8a : List (String × PV) :=
  [("id", PV.s "x"), ("rollout", PV.i 0), ("cycle", PV.i 60), ("rewards", PV.lst 1)]

/-- Rollout 1 of the same experiment with the same scalar `cycle`. -/
def evalC8b : List (String × PV) :=
  [("id", PV.s "x"), ("rollout", PV.i 1), ("cycle", PV.i 60), ("rewards", PV.lst 2)]

/-- The two-rollout batch. -/
def evalsC8 : List (List (String × PV)) := [evalC8a, evalC8b]

/-- The merge of `evalsC8`: one experiment id, the matching scalar, and
both rollouts' `rewards` contributions keyed by their rollout ids. -/
def rC8 : CState where
  ids := [PV.s "x"]
  scalars := [("cycle", PV.i 60)]
  aggs := [("rewards", [[(PV.i 0, [PV.lst 1]), (PV.i 1, [PV.lst 2])]])]

/-- A batch whose two rollouts disagree on the scalar `cycle`. -/
def evalC8c : List (String × PV) :=
  [("id", PV.s "y"), ("rollout", PV.i 0), ("cycle", PV.i 60)]

/-- The second rollout of the mismatching batch. -/
def evalC8d : List (String × PV) :=
  [("id", PV.s "y"), ("rollout", PV.i 1), ("cycle", PV.i 61)]

/-- The mismatching batch. -/
def evalsC8bad : List (List (String × PV)) := [evalC8c, evalC8d]

/-! ## Claim C1 -/

/-- C1: for the traffic-light node whose static program-1 state list is
`['GGrrrGGrrr', 'yyrrryyrrr', 'rrGGGrrGGG', 'rryyyrryyy']` (with durations
`[39, 6, 39, 6]`), the phases derivation yields exactly two phases: index 0
is the sorted set of approach edge ids green in the first state string and
index 1 that of the third; the yellow-only second and fourth states produce
no phase. -/
theorem claim_C1 :
    netIntersection.states =
      Except.ok [("247123161", ["GGrrrGGrrr", "yyrrryyrrr", "rrGGGrrGGG", "rryyyrryyy"])] ∧
    netIntersection.durations =
      Except.ok [("247123161", [39, 6, 39, 6])] ∧
    netIntersection.phases =
      Except.ok [("247123161",
        [(0, ["-238059324", "383432312"]), (1, ["-238059328", "309265401"])])] :=
  ⟨rfl, rfl, rfl⟩

/-! ## Claim C5 -/

/-- C5: the claim says `get_edges(network_id)` reads the net file located at
the path built from that same identifier.  The code hard-codes
`'intersection'`: queried for `grid`, it returns the edge data of
`intersection/intersection.net.xml` (edge `edgeI`) even though
`grid/grid.net.xml` exists and holds a different edge (`edgeG`), and its
result is identical to the query for `intersection`.  This contradicts the
function's own docstring (`path data/networks/{network_id}/{network_id}.net.xml`). -/
theorem claim_C5 :
    (get_edges fsTwoNets "grid").map (List.map (List.lookup "id")) =
      Except.ok [some (AVal.s "edgeI")] ∧
    (fsTwoNets.lookup (get_path "grid" "net")).map
        (fun d => (d.findall "edge").map (fun e => e.attrib.lookup "id")) =
      some [some "edgeG"] ∧
    get_edges fsTwoNets "grid" = get_edges fsTwoNets "intersection" :=
  ⟨rfl, rfl, rfl⟩

/-! ## Helper lemmas -/

theorem exMapM_cons_ok {α β : Type} {f : α → Except String β} {a : α} {as : List α}
    {bs : List β} (h : exMapM f (a :: as) = Except.ok bs) :
    ∃ b bs', f a = Except.ok b ∧ exMapM f as = Except.ok bs' ∧ bs = b :: bs' := by
  cases hfa : f a with
  | error e => simp [exMapM, hfa, Bind.bind, Except.bind] at h
  | ok b =>
      cases hrest : exMapM f as with
      | error e => simp [exMapM, hfa, hrest, Bind.bind, Except.bind] at h
      | ok bs' =>
          refine ⟨b, bs', rfl, rfl, ?_⟩
          simp [exMapM, hfa, hrest, Bind.bind, Except.bind] at h
          exact h.symm

theorem exMapM_ok_length {α β : Type} {f : α → Except String β} :
    ∀ {l : List α} {bs : List β}, exMapM f l = Except.ok bs → bs.length = l.length := by
  intro l
  induction l with
  | nil =>
      intro bs h
      simp only [exMapM, Except.ok.injEq] at h
      subst h
      rfl
  | cons a as ih =>
      intro bs h
      obtain ⟨b, bs', _, hrest, rfl⟩ := exMapM_cons_ok h
      simp [ih hrest]

theorem exMapM_ok_mem {α β : Type} {f : α → Except String β} :
    ∀ {l : List α} {bs : List β}, exMapM f l = Except.ok bs → ∀ b ∈ bs,
      ∃ a ∈ l, f a = Except.ok b := by
  intro l
  induction l with
  | nil =>
      intro bs h b hb
      simp only [exMapM, Except.ok.injEq] at h
      subst h
      simp at hb
  | cons a as ih =>
      intro bs h b hb
      obtain ⟨b0, bs', hfa, hrest, rfl⟩ := exMapM_cons_ok h
      rcases List.mem_cons.mp hb with hb | hb
      · exact ⟨a, List.mem_cons_self a as, hb ▸ hfa⟩
      · obtain ⟨a', ha', hfa'⟩ := ih hrest b hb
        exact ⟨a', List.mem_cons_of_mem a ha', hfa'⟩

theorem exMapM_ok_get {α β : Type} {f : α → Except String β} :
    ∀ {l : List α} {bs : List β}, exMapM f l = Except.ok bs →
      ∀ i (hi : i < l.length) (hb : i < bs.length),
        f (l.get ⟨i, hi⟩) = Except.ok (bs.get ⟨i, hb⟩) := by
  intro l
  induction l with
  | nil => intro bs h i hi hb; simp at hi
  | cons a as ih =>
      intro bs h i hi hb
      obtain ⟨b, bs', hfa, hrest, rfl⟩ := exMapM_cons_ok h
      cases i with
      | zero => simpa using hfa
      | succ j =>
          have hj : j < as.length := by simpa using hi
          have hj' : j < bs'.length := by simpa using hb
          simpa using ih hrest j hj hj'

theorem dictSet_lookup_self {α : Type} (d : List (String × α)) (k : String) (v : α) :
    (dictSet d k v).lookup k = some v := by
  induction d with
  | nil => simp [dictSet, List.lookup]
  | cons p rest ih =>
      obtain ⟨k0, v0⟩ := p
      by_cases h : k0 = k
      · subst h; simp [dictSet, List.lookup]
      · have hb : (k == k0) = false := beq_eq_false_iff_ne.mpr (Ne.symm h)
        simp [dictSet, h, List.lookup, hb, ih]

theorem dictSet_lookup_ne {α : Type} (d : List (String × α)) (k k' : String) (v : α)
    (h : k' ≠ k) : (dictSet d k v).lookup k' = d.lookup k' := by
  have hb : (k' == k) = false := beq_eq_false_iff_ne.mpr h
  induction d with
  | nil => simp [dictSet, List.lookup, hb]
  | cons p rest ih =>
      obtain ⟨k0, v0⟩ := p
      by_cases h0 : k0 = k
      · subst h0
        simp [dictSet, List.lookup, hb]
      · have hset : dictSet ((k0, v0) :: rest) k v = (k0, v0) :: dictSet rest k v := by
          simp [dictSet, h0]
        rw [hset]
        cases hb0 : k' == k0 <;> simp [List.lookup, hb0, ih]

theorem dedupFirstAux_mem {α : Type} [DecidableEq α] :
    ∀ (l : List α) (seen : List α) (x : α),
      x ∈ dedupFirstAux seen l ↔ x ∈ l ∧ x ∉ seen := by
  intro l
  induction l with
  | nil => intro seen x; simp [dedupFirstAux]
  | cons a as ih =>
      intro seen x
      by_cases ha : a ∈ seen
      · simp only [dedupFirstAux, if_pos ha, ih, List.mem_cons]
        constructor
        · rintro ⟨hx, hs⟩; exact ⟨Or.inr hx, hs⟩
        · rintro ⟨rfl | hx, hs⟩
          · exact absurd ha hs
          · exact ⟨hx, hs⟩
      · simp only [dedupFirstAux, if_neg ha, List.mem_cons, ih]
        constructor
        · rintro (rfl | ⟨hx, hs⟩)
          · exact ⟨Or.inl rfl, ha⟩
          · exact ⟨Or.inr hx, fun h2 => hs (Or.inr h2)⟩
        · rintro ⟨hxa | hx, hs⟩
          · exact Or.inl hxa
          · by_cases hxa : x = a
            · exact Or.inl hxa
            · exact Or.inr ⟨hx, fun h2 => h2.elim hxa hs⟩

theorem dedupFirst_mem {α : Type} [DecidableEq α] (l : List α) (x : α) :
    x ∈ dedupFirst l ↔ x ∈ l := by
  simp [dedupFirst, dedupFirstAux_mem]

theorem dedupFirstAux_nodup {α : Type} [DecidableEq α] :
    ∀ (l : List α) (seen : List α), (dedupFirstAux seen l).Nodup := by
  intro l
  induction l with
  | nil => intro seen; simp [dedupFirstAux]
  | cons a as ih =>
      intro seen
      by_cases ha : a ∈ seen
      · simpa [dedupFirstAux, if_pos ha] using ih seen
      · simp only [dedupFirstAux, if_neg ha]
        refine List.nodup_cons.mpr ⟨fun hmem => ?_, ih (a :: seen)⟩
        have := (dedupFirstAux_mem as (a :: seen) a).mp hmem
        exact this.2 (by simp)

theorem dedupFirst_nodup {α : Type} [DecidableEq α] (l : List α) : (dedupFirst l).Nodup :=
  dedupFirstAux_nodup l []

/-! ## Claim C6 -/

/-- C6: a missing XML file yields an empty extractor result, and an existing
file with no element matching the target path likewise yields the empty
list; neither case is an error. -/
theorem claim_C6 (fs : FS) (network_id target file_type : String)
    (ignore key child_key : Option String) :
    (fs.lookup (get_path network_id file_type) = none →
      get_generic_element fs network_id target file_type ignore key child_key =
        Except.ok []) ∧
    (∀ doc, fs.lookup (get_path network_id file_type) = some doc →
      doc.findall target = [] →
      get_generic_element fs network_id target file_type ignore key child_key =
        Except.ok []) := by
  constructor
  · intro h
    simp [get_generic_element, h]
  · intro doc h hf
    simp [get_generic_element, h, hf, ggeFold]

/-- Witness for C6 at concrete inputs: an empty filesystem, and a document
with no matching target. -/
theorem claim_C6_witness :
    get_generic_element ([] : FS) "net1" "edge" "net" none none none = Except.ok [] ∧
    get_generic_element [(get_path "net2" "net", XmlDoc.mk [])] "net2" "edge" "net"
      none none none = Except.ok [] :=
  ⟨(claim_C6 [] "net1" "edge" "net" none none none).1 rfl,
   (claim_C6 [(get_path "net2" "net", XmlDoc.mk [])] "net2" "edge" "net"
      none none none).2 (XmlDoc.mk []) rfl rfl⟩

/-! ## Claim C3 -/

/-- C3 (amended): a queried node whose registered program is not
static/program-1 gets empty states, durations and phases (the latter once
its link map parses); but a node with no registered program at all raises
`KeyError` — see the counterexample. -/
theorem claim_C3 (N : Network) (nid : String) (cfg : TLConfig)
    (hcfg : N.tlConfigs.lookup nid = some cfg) (hfn : progFn cfg = false) :
    N.nodeStates nid = Except.ok [] ∧
    N.nodeDurations nid = Except.ok [] ∧
    (∀ links, N.nodeLinks nid = Except.ok links → N.nodePhases nid = Except.ok []) := by
  have hs : N.nodeStates nid = Except.ok [] := by
    simp [Network.nodeStates, pyLookup, hcfg, hfn, Bind.bind, Except.bind]
  refine ⟨hs, ?_, ?_⟩
  · simp [Network.nodeDurations, pyLookup, hcfg, hfn, Bind.bind, Except.bind]
  · intro links hl
    simp [Network.nodePhases, hs, hl, phaseFold, Bind.bind, Except.bind]

/-- Counterexample to C3 as stated: for a traffic-light node with no
registered program, `states`, `durations` and `phases` all raise `KeyError`
instead of returning an empty result. -/
theorem claim_C3_cex :
    netNoProg.states = Except.error "KeyError: n1" ∧
    netNoProg.durations = Except.error "KeyError: n1" ∧
    netNoProg.phases = Except.error "KeyError: n1" :=
  ⟨rfl, rfl, rfl⟩

/-- Witness for C3 at the concrete non-matching program. -/
theorem claim_C3_witness :
    netOtherProg.nodeStates "n2" = Except.ok [] ∧
    netOtherProg.nodeDurations "n2" = Except.ok [] ∧
    netOtherProg.nodePhases "n2" = Except.ok [] :=
  ⟨(claim_C3 netOtherProg "n2" ⟨"static", 2, [⟨"G", "5"⟩]⟩ rfl rfl).1,
   (claim_C3 netOtherProg "n2" ⟨"static", 2, [⟨"G", "5"⟩]⟩ rfl rfl).2.1,
   (claim_C3 netOtherProg "n2" ⟨"static", 2, [⟨"G", "5"⟩]⟩ rfl rfl).2.2 [] rfl⟩

/-! ## Claim C7 -/

/-- C7 (amended): for a matched element not carrying the ignore attribute —
when a key is given and present and no child tag is given, the bare string
value is emitted; when a key is given and present and a child tag is also
given, the extractor raises `TypeError` (item assignment on a `str`) instead
of emitting anything; otherwise the full attribute mapping is emitted, and
when a child tag is given it carries the child attribute maps under
`{child_tag}s`. -/
theorem claim_C7 (fs : FS) (network_id target file_type : String)
    (ignore key child_key : Option String) (doc : XmlDoc) (e : XElem)
    (hdoc : fs.lookup (get_path network_id file_type) = some doc)
    (hfind : doc.findall target = [e])
    (hig : ignoreHit ignore e = false) :
    (∀ k v, key = some k → e.attrib.lookup k = some v → child_key = none →
      get_generic_element fs network_id target file_type ignore key child_key =
        Except.ok [GElem.str v]) ∧
    (∀ k v c, key = some k → e.attrib.lookup k = some v → child_key = some c →
      get_generic_element fs network_id target file_type ignore key child_key =
        Except.error "TypeError: str object does not support item assignment") ∧
    ((key = none ∨ ∃ k, key = some k ∧ e.attrib.lookup k = none) →
      get_generic_element fs network_id target file_type ignore key child_key =
        Except.ok [attrsEntry child_key e]) ∧
    (∀ c m, attrsEntry (some c) e = GElem.attrs m →
      m.lookup (c ++ "s") = some (AVal.dicts (e.childAttribs c))) := by
  refine ⟨?_, ?_, ?_, ?_⟩
  · rintro k v rfl hk rfl
    simp [get_generic_element, hdoc, hfind, ggeFold, hig, hk, Bind.bind, Except.bind]
  · rintro k v c rfl hk rfl
    simp [get_generic_element, hdoc, hfind, ggeFold, hig, hk, Bind.bind, Except.bind]
  · rintro (rfl | ⟨k, rfl, hk⟩) <;>
      simp [get_generic_element, hdoc, hfind, ggeFold, hig, Bind.bind, Except.bind]
    simp [hk]
  · intro c m hm
    simp only [attrsEntry, GElem.attrs.injEq] at hm
    subst hm
    exact dictSet_lookup_self _ _ _

/-- Counterexample to C7 as stated: supplying both a key the element
carries and a child tag does not emit an entry carrying the child list — it
raises `TypeError`, because the child list is item-assigned onto the bare
string that was just appended. -/
theorem claim_C7_cex :
    get_generic_element fsC7 "n7" "edge" "net" none (some "id") (some "lane") =
      Except.error "TypeError: str object does not support item assignment" :=
  rfl

/-- Witness for C7 at concrete inputs: key extraction without a child tag
emits the bare string, and the no-key call emits the mapping with the
`lanes` child list attached. -/
theorem claim_C7_witness :
    get_generic_element fsC7 "n7" "edge" "net" none (some "id") none =
      Except.ok [GElem.str "e1"] ∧
    get_generic_element fsC7 "n7" "edge" "net" none none (some "lane") =
      Except.ok [attrsEntry (some "lane") docC7XElem] ∧
    attrsEntry (some "lane") docC7XElem = GElem.attrs mC7 ∧
    mC7.lookup "lanes" = some (AVal.dicts [[("id", "e1_0"), ("speed", "10")]]) := by
  refine ⟨?_, ?_, rfl, ?_⟩
  · exact (claim_C7 fsC7 "n7" "edge" "net" none (some "id") none docC7 docC7XElem
      rfl rfl rfl).1 "id" "e1" rfl rfl rfl
  · exact (claim_C7 fsC7 "n7" "edge" "net" none none (some "lane") docC7 docC7XElem
      rfl rfl rfl).2.2.1 (Or.inl rfl)
  · exact (claim_C7 fsC7 "n7" "edge" "net" none none (some "lane") docC7 docC7XElem
      rfl rfl rfl).2.2.2 "lane" mC7 rfl

/-! ## Claim C9 -/

/-- C9: for a node with a static program-1 entry, `durations` returns the
parsed integer duration of every phase entry of that program in state
order — including entries whose state has no green bit — so it has exactly
the length of the states list. -/
theorem claim_C9 (N : Network) (nid : String) (cfg : TLConfig) (ds : List Int)
    (hcfg : N.tlConfigs.lookup nid = some cfg) (hfn : progFn cfg = true)
    (hds : N.nodeDurations nid = Except.ok ds) :
    N.nodeStates nid = Except.ok (cfg.phases.map (fun p => p.state)) ∧
    exMapM (fun p => pyInt p.duration) cfg.phases = Except.ok ds ∧
    (∀ i (hi : i < cfg.phases.length) (hd : i < ds.length),
      pyInt (cfg.phases.get ⟨i, hi⟩).duration = Except.ok (ds.get ⟨i, hd⟩)) ∧
    ds.length = cfg.phases.length ∧
    (∀ ss, N.nodeStates nid = Except.ok ss → ds.length = ss.length) := by
  have hmm : exMapM (fun p => pyInt p.duration) cfg.phases = Except.ok ds := by
    simpa [Network.nodeDurations, pyLookup, hcfg, hfn, Bind.bind, Except.bind] using hds
  have hlen : ds.length = cfg.phases.length := exMapM_ok_length hmm
  have hst : N.nodeStates nid = Except.ok (cfg.phases.map (fun p => p.state)) := by
    simp [Network.nodeStates, pyLookup, hcfg, hfn, Bind.bind, Except.bind]
  refine ⟨hst, hmm, ?_, hlen, ?_⟩
  · intro i hi hd
    exact exMapM_ok_get hmm i hi hd
  · intro ss hss
    rw [hst] at hss
    simp only [Except.ok.injEq] at hss
    subst hss
    simp [hlen]

/-- Witness for C9 at the intersection network: the durations list keeps
all four entries even though the phases derivation keeps only two. -/
theorem claim_C9_witness :
    netIntersection.nodeDurations "247123161" = Except.ok [39, 6, 39, 6] ∧
    netIntersection.nodeStates "247123161" =
      Except.ok ["GGrrrGGrrr", "yyrrryyrrr", "rrGGGrrGGG", "rryyyrryyy"] ∧
    ([39, 6, 39, 6] : List Int).length =
      (["GGrrrGGrrr", "yyrrryyrrr", "rrGGGrrGGG", "rryyyrryyy"] : List String).length :=
  ⟨rfl,
   by
    have := (claim_C9 netIntersection "247123161"
      ⟨"static", 1,
       [⟨"GGrrrGGrrr", "39"⟩, ⟨"yyrrryyrrr", "6"⟩,
        ⟨"rrGGGrrGGG", "39"⟩, ⟨"rryyyrryyy", "6"⟩]⟩
      [39, 6, 39, 6] rfl rfl rfl).1
    exact this,
   rfl⟩

/-! ## Claim C10 -/

/-- C10: when the supplied environment has no `cycle_time` attribute,
`__init__` leaves `self.cycle = None`, and every call of `_is_save_step`
then reads `self.step_counter` — an attribute never assigned on the
`Experiment` object — so the check raises `AttributeError` instead of
applying the default cadence. -/
theorem claim_C10 (env : Env) (dir_path : String) (train : Bool)
    (policies : Option (List PV)) (e : Experiment)
    (hcy : env.cycle_time = none)
    (hinit : expInit env dir_path train policies = Except.ok e) :
    e.cycle = none ∧
    e.save_step = 1 / env.sim_params.sim_step ∧
    e.isSaveStep =
      Except.error "AttributeError: Experiment object has no attribute step_counter" := by
  by_cases hv : (!train && policies.isNone) = true
  · simp [expInit, hv] at hinit
  · by_cases hz : env.sim_params.sim_step = 0
    · simp [expInit, hv, hz] at hinit
    · simp only [expInit, hv, Bool.false_eq_true, if_false, if_neg hz,
        Except.ok.injEq] at hinit
      subst hinit
      refine ⟨hcy, by simp [hcy], ?_⟩
      simp [Experiment.isSaveStep, hcy, Experiment.pyAttr, Bind.bind, Except.bind]

/-- Witness for C10 at the concrete cycle-less environment. -/
theorem claim_C10_witness :
    envC10.cycle_time = none ∧
    expInit envC10 "data/emissions/" true none = Except.ok expC10 ∧
    (expC10.cycle = none ∧
     expC10.save_step = 1 / envC10.sim_params.sim_step ∧
     expC10.isSaveStep =
       Except.error "AttributeError: Experiment object has no attribute step_counter") :=
  ⟨rfl, rfl, claim_C10 envC10 "data/emissions/" true none expC10 rfl rfl⟩

/-! ## Claim C4 -/

theorem exMapM_ok_mem_fwd {α β : Type} {f : α → Except String β} :
    ∀ {l : List α} {bs : List β}, exMapM f l = Except.ok bs →
      ∀ {a : α} {b : β}, a ∈ l → f a = Except.ok b → b ∈ bs := by
  intro l
  induction l with
  | nil => intro bs h a b ha; simp at ha
  | cons x xs ih =>
      intro bs h a b ha hfa
      obtain ⟨b0, bs', hfx, hrest, rfl⟩ := exMapM_cons_ok h
      rcases List.mem_cons.mp ha with rfl | ha
      · have hbb : b0 = b := by
          rw [hfa] at hfx
          injection hfx with hbb
          exact hbb.symm
        subst hbb
        exact List.mem_cons_self _ _
      · exact List.mem_cons_of_mem _ (ih hrest ha hfa)

theorem splitChAux_ne_nil (sep : Char) :
    ∀ (l cur : List Char), splitChAux sep cur l ≠ [] := by
  intro l
  induction l with
  | nil => intro cur; simp [splitChAux]
  | cons c cs ih =>
      intro cur
      by_cases hc : c = sep
      · simp [splitChAux, hc]
      · simpa [splitChAux, hc] using ih (c :: cur)

theorem joinSep_splitChAux (sep : Char) :
    ∀ (l cur : List Char), joinSep sep (splitChAux sep cur l) = cur.reverse ++ l := by
  intro l
  induction l with
  | nil => intro cur; simp [splitChAux, joinSep]
  | cons c cs ih =>
      intro cur
      by_cases hc : c = sep
      · subst hc
        simp only [splitChAux, if_pos rfl]
        have hne := splitChAux_ne_nil c cs []
        obtain ⟨x, rest, hx⟩ : ∃ x rest, splitChAux c [] cs = x :: rest := by
          cases hsp : splitChAux c [] cs with
          | nil => exact absurd hsp hne
          | cons x rest => exact ⟨x, rest, rfl⟩
        have hjoin := ih []
        rw [hx] at hjoin ⊢
        simp only [List.reverse_nil, List.nil_append] at hjoin
        show cur.reverse ++ c :: joinSep c (x :: rest) = cur.reverse ++ c :: cs
        rw [hjoin]
      · simp only [splitChAux, if_neg hc]
        rw [ih (c :: cur)]
        simp

theorem pySplitSpace_inj : Function.Injective pySplitSpace := by
  intro a b hab
  have hmk : Function.Injective String.mk := fun x y hxy => congrArg String.data hxy
  have h1 : splitChAux ' ' [] a.data = splitChAux ' ' [] b.data :=
    List.map_injective_iff.mpr hmk hab
  have h2 := congrArg (joinSep ' ') h1
  rw [joinSep_splitChAux, joinSep_splitChAux] at h2
  simp only [List.reverse_nil, List.nil_append] at h2
  cases a
  cases b
  exact congrArg String.mk h2

theorem routeGrp_ne_nil {routes : List (List String)} {k : String}
    (hk : k ∈ routeKeys routes) : routeGrp routes k ≠ [] := by
  rw [routeKeys, dedupFirst_mem] at hk
  obtain ⟨r, hr, hrk⟩ := List.mem_map.mp hk
  have hmem : r ∈ routeGrp routes k :=
    List.mem_filter.mpr ⟨hr, by simpa using hrk⟩
  exact List.ne_nil_of_mem hmem

theorem routeSplits_nodup (strs : List String) : (routeSplits strs).Nodup :=
  (dedupFirst_nodup strs).map pySplitSpace_inj

/-- The per-origin properties of `prsOf`. -/
theorem prsOf_spec (strs : List String) (k : String)
    (hk : k ∈ routeKeys (routeSplits strs)) :
    prsOf strs k ≠ [] ∧
    (∀ r p, (r, p) ∈ prsOf strs k →
      p = 1 / ((prsOf strs k).length : Rat) ∧ r.headD "" = k) ∧
    ((prsOf strs k).map Prod.fst).Nodup ∧
    ((prsOf strs k).map Prod.snd).sum = 1 := by
  have hne := routeGrp_ne_nil hk
  have hlen : (prsOf strs k).length = (routeGrp (routeSplits strs) k).length :=
    List.length_map _ _
  refine ⟨?_, ?_, ?_, ?_⟩
  · simp only [prsOf, ne_eq, List.map_eq_nil_iff]
    exact hne
  · intro r p hp
    obtain ⟨r', hr', hpr⟩ := List.mem_map.mp hp
    rw [Prod.mk.injEq] at hpr
    obtain ⟨h1, h2⟩ := hpr
    subst h1
    refine ⟨by rw [hlen, ← h2], ?_⟩
    have := (List.mem_filter.mp hr').2
    simpa using this
  · have hmap : (prsOf strs k).map Prod.fst = routeGrp (routeSplits strs) k := by
      simp [prsOf, List.map_map, Function.comp_def]
    rw [hmap, routeGrp]
    exact (routeSplits_nodup strs).filter _
  · have hrepl : ∀ (l : List (List String)) (c : Rat),
        ((l.map (fun r => (r, c))).map Prod.snd) = List.replicate l.length c := by
      intro l c
      induction l with
      | nil => simp
      | cons x xs ih => simp [ih, List.replicate_succ]
    have hn0 : (routeGrp (routeSplits strs) k).length ≠ 0 := by
      simpa [List.length_eq_zero] using hne
    have hcast : ((routeGrp (routeSplits strs) k).length : Rat) ≠ 0 :=
      Nat.cast_ne_zero.mpr hn0
    rw [prsOf, hrepl, List.sum_replicate, nsmul_eq_mul]
    rw [one_div, mul_inv_cancel₀ hcast]

/-- The structural properties of `routeGroups`: distinct origins; per
group — non-empty, uniform probability `1/n`, members starting at the
origin, distinct routes, probabilities summing to `1`; and every input
route string lands in the group of its starting edge. -/
theorem routeGroups_spec (strs : List String) :
    ((routeGroups strs).map Prod.fst).Nodup ∧
    (∀ k prs, (k, prs) ∈ routeGroups strs →
      prs ≠ [] ∧
      (∀ r p, (r, p) ∈ prs → p = 1 / (prs.length : Rat) ∧ r.headD "" = k) ∧
      (prs.map Prod.fst).Nodup ∧
      (prs.map Prod.snd).sum = 1) ∧
    (∀ s ∈ strs, ∃ prs, ((pySplitSpace s).headD "", prs) ∈ routeGroups strs ∧
      ∃ p, (pySplitSpace s, p) ∈ prs) := by
  refine ⟨?_, ?_, ?_⟩
  · have hmap : (routeGroups strs).map Prod.fst = routeKeys (routeSplits strs) := by
      simp [routeGroups, List.map_map, Function.comp_def]
    rw [hmap, routeKeys]
    exact dedupFirst_nodup _
  · intro k prs hmem
    obtain ⟨k', hk', hpair⟩ := List.mem_map.mp hmem
    rw [Prod.mk.injEq] at hpair
    obtain ⟨h1, h2⟩ := hpair
    rw [← h1, ← h2]
    exact prsOf_spec strs k' hk'
  · intro s hs
    have hsu : s ∈ dedupFirst strs := (dedupFirst_mem strs s).mpr hs
    have hsr : pySplitSpace s ∈ routeSplits strs := List.mem_map_of_mem _ hsu
    have hk : (pySplitSpace s).headD "" ∈ routeKeys (routeSplits strs) := by
      rw [routeKeys, dedupFirst_mem]
      exact List.mem_map_of_mem _ hsr
    refine ⟨prsOf strs ((pySplitSpace s).headD ""), List.mem_map_of_mem _ hk, ?_⟩
    refine ⟨_, List.mem_map_of_mem _ ?_⟩
    exact List.mem_filter.mpr ⟨hsr, by simp⟩

/-- C4: `get_routes` deduplicates identical routes, groups the distinct
routes by their first edge, and for each origin returns `(route,
probability)` pairs each carrying `1/n` with `n` the number of distinct
routes sharing that origin, so the probabilities of every origin sum
exactly to `1` (the float sum of the source is the exact rational sum up to
floating tolerance). -/
theorem claim_C4 (fs : FS) (network_id : String)
    (R : List (String × List (List String × Rat)))
    (h : get_routes fs network_id = Except.ok R) :
    (R.map Prod.fst).Nodup ∧
    (∀ k prs, (k, prs) ∈ R →
      prs ≠ [] ∧
      (∀ r p, (r, p) ∈ prs → p = 1 / (prs.length : Rat) ∧ r.headD "" = k) ∧
      (prs.map Prod.fst).Nodup ∧
      (prs.map Prod.snd).sum = 1) ∧
    (∀ raw s,
      get_generic_element fs network_id "vehicle/route" "rou" none (some "edges") none =
        Except.ok raw →
      GElem.str s ∈ raw →
      ∃ prs, ((pySplitSpace s).headD "", prs) ∈ R ∧ ∃ p, (pySplitSpace s, p) ∈ prs) := by
  rw [get_routes] at h
  cases hraw : get_generic_element fs network_id "vehicle/route" "rou" none (some "edges") none with
  | error e =>
      rw [hraw] at h
      simp [Bind.bind, Except.bind] at h
  | ok raw0 =>
      rw [hraw] at h
      simp only [Bind.bind, Except.bind] at h
      cases hstrs : exMapM routeStr raw0 with
      | error e =>
          rw [hstrs] at h
          simp at h
      | ok strs =>
          rw [hstrs] at h
          simp only [Except.ok.injEq] at h
          subst h
          obtain ⟨h1, h2, h3⟩ := routeGroups_spec strs
          refine ⟨h1, h2, ?_⟩
          intro raw s hraw' hs
          simp only [Except.ok.injEq] at hraw'
          subst hraw'
          refine h3 s ?_
          exact exMapM_ok_mem_fwd hstrs hs rfl

/-- Witness for C4 at a concrete routes file: the duplicate route is
dropped, origin `A` keeps its two distinct routes, and their probabilities
sum to `1`. -/
theorem claim_C4_witness :
    get_routes fsC4 "net4" = Except.ok (routeGroups strsC4) ∧
    ("A", prsOf strsC4 "A") ∈ routeGroups strsC4 ∧
    (prsOf strsC4 "A").map Prod.fst = [["A", "B"], ["A", "C"]] ∧
    ((prsOf strsC4 "A").map Prod.snd).sum = 1 ∧
    ((prsOf strsC4 "A").map Prod.fst).Nodup := by
  have hmem : ("A", prsOf strsC4 "A") ∈ routeGroups strsC4 := List.mem_cons_self _ _
  have hspec := (claim_C4 fsC4 "net4" (routeGroups strsC4) rfl).2.1 "A"
    (prsOf strsC4 "A") hmem
  exact ⟨rfl, hmem, rfl, hspec.2.2.2, hspec.2.2.1⟩

/-! ## Claim C2 -/

theorem lexLe_total : ∀ a b : List Char, lexLe a b = true ∨ lexLe b a = true := by
  intro a
  induction a with
  | nil => intro b; left; rfl
  | cons x xs ih =>
      intro b
      cases b with
      | nil => right; rfl
      | cons y ys =>
          simp only [lexLe]
          rcases Nat.lt_trichotomy x.toNat y.toNat with h | h | h
          · left; simp [h]
          · have h1 : ¬ x.toNat < y.toNat := by omega
            have h2 : ¬ y.toNat < x.toNat := by omega
            simpa [h1, h2] using ih ys
          · right; simp [h]

theorem lexLe_trans : ∀ a b c : List Char,
    lexLe a b = true → lexLe b c = true → lexLe a c = true := by
  intro a
  induction a with
  | nil => intro b c _ _; rfl
  | cons x xs ih =>
      intro b c hab hbc
      cases b with
      | nil => simp [lexLe] at hab
      | cons y ys =>
          cases c with
          | nil => simp [lexLe] at hbc
          | cons z zs =>
              simp only [lexLe] at hab hbc ⊢
              by_cases h1 : x.toNat < y.toNat
              · by_cases h2 : y.toNat < z.toNat
                · have h3 : x.toNat < z.toNat := Nat.lt_trans h1 h2
                  simp [h3]
                · by_cases h3 : z.toNat < y.toNat
                  · simp [h2, h3] at hbc
                  · have h4 : x.toNat < z.toNat := by omega
                    simp [h4]
              · by_cases h1' : y.toNat < x.toNat
                · simp [h1, h1'] at hab
                · have hab' : lexLe xs ys = true := by simpa [h1, h1'] using hab
                  by_cases h2 : y.toNat < z.toNat
                  · have h4 : x.toNat < z.toNat := by omega
                    simp [h4]
                  · by_cases h3 : z.toNat < y.toNat
                    · simp [h2, h3] at hbc
                    · have hbc' : lexLe ys zs = true := by simpa [h2, h3] using hbc
                      have h4 : ¬ x.toNat < z.toNat := by omega
                      have h5 : ¬ z.toNat < x.toNat := by omega
                      simp [h4, h5, ih ys zs hab' hbc']

instance : IsTotal String pyStrLeRel :=
  ⟨fun a b => lexLe_total a.data b.data⟩

instance : IsTrans String pyStrLeRel :=
  ⟨fun a b c => lexLe_trans a.data b.data c.data⟩

theorem sortedSet_sorted (l : List String) : List.Sorted pyStrLeRel (sortedSet l) :=
  List.sorted_insertionSort pyStrLeRel l.dedup

theorem sortedSet_nodup (l : List String) : (sortedSet l).Nodup :=
  (List.perm_insertionSort pyStrLeRel l.dedup).nodup_iff.mpr l.nodup_dedup

theorem sortedSet_mem (l : List String) (x : String) : x ∈ sortedSet l ↔ x ∈ l := by
  rw [sortedSet, (List.perm_insertionSort pyStrLeRel l.dedup).mem_iff, List.mem_dedup]

/-- Structure of a successful `greenSet`: the result is sorted, has no
duplicates, and draws only from the link map's edge ids. -/
theorem greenSet_spec {links : List (Int × String)} {st : String} {comp : List String}
    (h : greenSet links st = Except.ok comp) :
    List.Sorted pyStrLeRel comp ∧ comp.Nodup ∧
    ∀ e ∈ comp, ∃ q ∈ links, q.2 = e := by
  rw [greenSet] at h
  cases hbits : exMapM (linkBit st) links with
  | error e => rw [hbits] at h; simp [Bind.bind, Except.bind] at h
  | ok bits =>
      rw [hbits] at h
      simp only [Bind.bind, Except.bind, Except.ok.injEq] at h
      subst h
      refine ⟨sortedSet_sorted _, sortedSet_nodup _, ?_⟩
      intro e he
      rw [sortedSet_mem] at he
      obtain ⟨q, hq, hqe⟩ := List.mem_map.mp he
      have hqb : q ∈ bits := (List.mem_filter.mp hq).1
      obtain ⟨p, hp, hfp⟩ := exMapM_ok_mem hbits q hqb
      refine ⟨p, hp, ?_⟩
      rw [linkBit] at hfp
      cases hchar : pyStrIndex st p.1 with
      | error e2 => rw [hchar] at hfp; simp [Bind.bind, Except.bind] at hfp
      | ok ch =>
          rw [hchar] at hfp
          simp only [Bind.bind, Except.bind, Except.ok.injEq] at hfp
          rw [← hfp] at hqe
          simpa using hqe

theorem phaseFold_len {links : List (Int × String)} :
    ∀ {sts : List String} {i : Nat} {ph : List (Nat × List String)},
      phaseFold links sts i = Except.ok ph → ph.length ≤ sts.length := by
  intro sts
  induction sts with
  | nil =>
      intro i ph h
      simp only [phaseFold, Except.ok.injEq] at h
      subst h
      simp
  | cons st rest ih =>
      intro i ph h
      rw [phaseFold] at h
      cases hg : greenSet links st with
      | error e => rw [hg] at h; simp [Bind.bind, Except.bind] at h
      | ok comp =>
          rw [hg] at h
          simp only [Bind.bind, Except.bind] at h
          by_cases hc : comp.isEmpty
          · rw [if_pos hc] at h
            exact Nat.le_succ_of_le (ih h)
          · rw [if_neg hc] at h
            cases ht : phaseFold links rest (i + 1) with
            | error e => rw [ht] at h; simp at h
            | ok tail =>
                rw [ht] at h
                simp only [Except.ok.injEq] at h
                subst h
                simpa using Nat.succ_le_succ (ih ht)

theorem phaseFold_idx {links : List (Int × String)} :
    ∀ {sts : List String} {i : Nat} {ph : List (Nat × List String)},
      phaseFold links sts i = Except.ok ph →
      ph.map Prod.fst = List.range' i ph.length := by
  intro sts
  induction sts with
  | nil =>
      intro i ph h
      simp only [phaseFold, Except.ok.injEq] at h
      subst h
      simp
  | cons st rest ih =>
      intro i ph h
      rw [phaseFold] at h
      cases hg : greenSet links st with
      | error e => rw [hg] at h; simp [Bind.bind, Except.bind] at h
      | ok comp =>
          rw [hg] at h
          simp only [Bind.bind, Except.bind] at h
          by_cases hc : comp.isEmpty
          · rw [if_pos hc] at h
            exact ih h
          · rw [if_neg hc] at h
            cases ht : phaseFold links rest (i + 1) with
            | error e => rw [ht] at h; simp at h
            | ok tail =>
                rw [ht] at h
                simp only [Except.ok.injEq] at h
                subst h
                simp only [List.map_cons, List.length_cons, ih ht]
                rfl

theorem phaseFold_mem {links : List (Int × String)} :
    ∀ {sts : List String} {i : Nat} {ph : List (Nat × List String)},
      phaseFold links sts i = Except.ok ph →
      ∀ p ∈ ph, p.2 ≠ [] ∧ ∃ st ∈ sts, greenSet links st = Except.ok p.2 := by
  intro sts
  induction sts with
  | nil =>
      intro i ph h
      simp only [phaseFold, Except.ok.injEq] at h
      subst h
      intro p hp
      simp at hp
  | cons st rest ih =>
      intro i ph h
      rw [phaseFold] at h
      cases hg : greenSet links st with
      | error e => rw [hg] at h; simp [Bind.bind, Except.bind] at h
      | ok comp =>
          rw [hg] at h
          simp only [Bind.bind, Except.bind] at h
          by_cases hc : comp.isEmpty
          · rw [if_pos hc] at h
            intro p hp
            obtain ⟨hne, st', hst', hgs⟩ := ih h p hp
            exact ⟨hne, st', List.mem_cons_of_mem _ hst', hgs⟩
          · rw [if_neg hc] at h
            cases ht : phaseFold links rest (i + 1) with
            | error e => rw [ht] at h; simp at h
            | ok tail =>
                rw [ht] at h
                simp only [Except.ok.injEq] at h
                subst h
                intro p hp
                rcases List.mem_cons.mp hp with rfl | hp
                · refine ⟨?_, st, List.mem_cons_self _ _, hg⟩
                  simpa [List.isEmpty_iff] using hc
                · obtain ⟨hne, st', hst', hgs⟩ := ih ht p hp
                  exact ⟨hne, st', List.mem_cons_of_mem _ hst', hgs⟩

theorem dictInsert_mem {κ α : Type} [DecidableEq κ] :
    ∀ {l : List (κ × α)} {p q : κ × α}, q ∈ dictInsert l p → q ∈ l ∨ q = p := by
  intro l
  induction l with
  | nil => intro p q hq; right; simpa [dictInsert] using hq
  | cons r rest ih =>
      intro p q hq
      obtain ⟨k0, v0⟩ := r
      by_cases h : k0 = p.1
      · have hred : dictInsert ((k0, v0) :: rest) p = (k0, p.2) :: rest := by
          simp [dictInsert, h]
        rw [hred, List.mem_cons] at hq
        cases hq with
        | inl h1 =>
            right
            rw [h1, h]
        | inr h1 => left; exact List.mem_cons_of_mem _ h1
      · have hred : dictInsert ((k0, v0) :: rest) p = (k0, v0) :: dictInsert rest p := by
          simp [dictInsert, h]
        rw [hred, List.mem_cons] at hq
        cases hq with
        | inl h1 => left; rw [h1]; exact List.mem_cons_self _ _
        | inr h1 =>
            rcases ih h1 with h2 | h2
            · left; exact List.mem_cons_of_mem _ h2
            · right; exact h2

theorem foldl_dictInsert_mem {κ α : Type} [DecidableEq κ] :
    ∀ {ps : List (κ × α)} {init : List (κ × α)} {q : κ × α},
      q ∈ ps.foldl dictInsert init → q ∈ init ∨ q ∈ ps := by
  intro ps
  induction ps with
  | nil => intro init q h; left; exact h
  | cons p ps' ih =>
      intro init q h
      rcases ih h with h1 | h1
      · rcases dictInsert_mem h1 with h2 | h2
        · left; exact h2
        · right; exact h2 ▸ List.mem_cons_self _ _
      · right; exact List.mem_cons_of_mem _ h1

/-- Every entry of a successful link map comes from a controlled connection
of the node: its value is that connection's `from` edge id. -/
theorem nodeLinks_spec {N : Network} {nid : String} {links : List (Int × String)}
    (h : N.nodeLinks nid = Except.ok links) :
    ∀ q ∈ links, ∃ c ∈ N.connections,
      c.tl = some nid ∧ c.linkIndex.isSome = true ∧ q.2 = c.from_ := by
  rw [Network.nodeLinks] at h
  cases hpairs : exMapM connLink
      (N.connections.filter (fun c => c.tl == some nid && c.linkIndex.isSome)) with
  | error e => rw [hpairs] at h; simp [Bind.bind, Except.bind] at h
  | ok pairs =>
      rw [hpairs] at h
      simp only [Bind.bind, Except.bind, Except.ok.injEq] at h
      subst h
      intro q hq
      rcases foldl_dictInsert_mem hq with h1 | h1
      · simp at h1
      · obtain ⟨c, hc, hfc⟩ := exMapM_ok_mem hpairs q h1
        have hcf := List.mem_filter.mp hc
        have hpred := hcf.2
        simp only [Bool.and_eq_true, beq_iff_eq] at hpred
        refine ⟨c, hcf.1, hpred.1, hpred.2, ?_⟩
        rw [connLink] at hfc
        cases hint : pyInt (c.linkIndex.getD "") with
        | error e2 => rw [hint] at hfc; simp [Bind.bind, Except.bind] at hfc
        | ok n =>
            rw [hint] at hfc
            simp only [Bind.bind, Except.bind, Except.ok.injEq] at hfc
            rw [← hfc]

/-- C2 (amended): for every traffic-light node, the phase map has at most
as many phases as states; phase indices are exactly the dense integers
`0, 1, ...` in state order, with empty-green states receiving no index;
every phase's approach set is non-empty, duplicate-free and sorted; and —
provided every controlled connection of the node originates from one of its
incoming approaches, a property of well-formed SUMO files that the code
itself does not enforce — every member of a phase is an incoming approach
of the node. -/
theorem claim_C2 (N : Network) (nid : String) (ph : List (Nat × List String))
    (sts : List String)
    (hst : N.nodeStates nid = Except.ok sts)
    (hph : N.nodePhases nid = Except.ok ph)
    (hwf : ∀ c ∈ N.connections, c.tl = some nid → c.linkIndex.isSome = true →
      c.from_ ∈ N.nodeApproaches nid) :
    ph.length ≤ sts.length ∧
    ph.map Prod.fst = List.range ph.length ∧
    ∀ p ∈ ph, p.2 ≠ [] ∧ p.2.Nodup ∧ List.Sorted pyStrLeRel p.2 ∧
      ∀ eid ∈ p.2, eid ∈ N.nodeApproaches nid := by
  rw [Network.nodePhases, hst] at hph
  simp only [Bind.bind, Except.bind] at hph
  cases hl : N.nodeLinks nid with
  | error e => rw [hl] at hph; simp at hph
  | ok links =>
      rw [hl] at hph
      refine ⟨phaseFold_len hph, ?_, ?_⟩
      · rw [phaseFold_idx hph, List.range_eq_range']
      · intro p hp
        obtain ⟨hne, st, hstm, hgs⟩ := phaseFold_mem hph p hp
        obtain ⟨hsort, hnd, hsub⟩ := greenSet_spec hgs
        refine ⟨hne, hnd, hsort, ?_⟩
        intro eid he
        obtain ⟨q, hq, hqe⟩ := hsub eid he
        obtain ⟨c, hc, htl, hli, hqc⟩ := nodeLinks_spec hl q hq
        rw [← hqe, hqc]
        exact hwf c hc htl hli

/-- Counterexample to C2 as stated: the derived phase 0 contains `ghost`,
which is not an incoming approach of node `n1` (the node has no incoming
edges) — the code never checks that a connection's `from` edge is an
approach. -/
theorem claim_C2_cex :
    netBadConn.nodePhases "n1" = Except.ok [(0, ["ghost"])] ∧
    netBadConn.nodeApproaches "n1" = [] ∧
    ¬ ("ghost" ∈ netBadConn.nodeApproaches "n1") :=
  ⟨rfl, rfl, by simp [Network.nodeApproaches, netBadConn]⟩

/-- Witness for C2 at the intersection network, every hypothesis
discharged concretely. -/
theorem claim_C2_witness :
    (∀ c ∈ netIntersection.connections, c.tl = some "247123161" →
      c.linkIndex.isSome = true →
      c.from_ ∈ netIntersection.nodeApproaches "247123161") ∧
    (([(0, ["-238059324", "383432312"]), (1, ["-238059328", "309265401"])] :
        List (Nat × List String)).length ≤
      (["GGrrrGGrrr", "yyrrryyrrr", "rrGGGrrGGG", "rryyyrryyy"] : List String).length ∧
    ([(0, ["-238059324", "383432312"]), (1, ["-238059328", "309265401"])] :
        List (Nat × List String)).map Prod.fst =
      List.range ([(0, ["-238059324", "383432312"]),
        (1, ["-238059328", "309265401"])] : List (Nat × List String)).length ∧
    ∀ p ∈ ([(0, ["-238059324", "383432312"]), (1, ["-238059328", "309265401"])] :
        List (Nat × List String)), p.2 ≠ [] ∧ p.2.Nodup ∧
      List.Sorted pyStrLeRel p.2 ∧
      ∀ eid ∈ p.2, eid ∈ netIntersection.nodeApproaches "247123161") :=
  ⟨by decide,
   claim_C2 netIntersection "247123161"
     [(0, ["-238059324", "383432312"]), (1, ["-238059328", "309265401"])]
     ["GGrrrGGrrr", "yyrrryyrrr", "rrGGGrrGGG", "rryyyrryyy"]
     rfl rfl (by decide)⟩

/-! ## Claim C8 -/

theorem ddGet_ddAppend_self (d : List (PV × List PV)) (q : PV) (v : PV) :
    ddGet (ddAppend d q v) q = ddGet d q ++ [v] := by
  induction d with
  | nil => simp [ddAppend, ddGet, List.lookup]
  | cons p rest ih =>
      obtain ⟨q0, l⟩ := p
      by_cases h : q0 = q
      · subst h
        simp [ddAppend, ddGet, List.lookup]
      · have hb : (q == q0) = false := beq_eq_false_iff_ne.mpr (Ne.symm h)
        simp [ddAppend, h, ddGet, List.lookup, hb] at ih ⊢
        exact ih

theorem ddGet_ddAppend_ne (d : List (PV × List PV)) (q q' : PV) (v : PV)
    (h : q' ≠ q) : ddGet (ddAppend d q v) q' = ddGet d q' := by
  have hb : (q' == q) = false := beq_eq_false_iff_ne.mpr h
  induction d with
  | nil => simp [ddAppend, ddGet, List.lookup, hb]
  | cons p rest ih =>
      obtain ⟨q0, l⟩ := p
      by_cases h0 : q0 = q
      · subst h0
        simp [ddAppend, ddGet, List.lookup, hb]
      · have hred : ddAppend ((q0, l) :: rest) q v = (q0, l) :: ddAppend rest q v := by
          simp [ddAppend, h0]
        rw [hred]
        cases hb0 : q' == q0 <;>
            simp [ddGet, List.lookup, hb0] at ih ⊢ <;>
          exact ih

theorem mem_ddGet_ddAppend {d : List (PV × List PV)} {q q' v v' : PV}
    (h : v' ∈ ddGet d q') : v' ∈ ddGet (ddAppend d q v) q' := by
  by_cases hq : q' = q
  · subst hq
    rw [ddGet_ddAppend_self]
    exact List.mem_append_left _ h
  · rw [ddGet_ddAppend_ne _ _ _ _ hq]
    exact h

theorem lookup_filter_ne {α : Type} (d : List (String × α)) (k k' : String)
    (h : k' ≠ k) : (d.filter (fun p => !(p.1 == k))).lookup k' = d.lookup k' := by
  induction d with
  | nil => simp
  | cons p rest ih =>
      obtain ⟨k0, v0⟩ := p
      by_cases h0 : k0 = k
      · subst h0
        have hb : (k' == k0) = false := beq_eq_false_iff_ne.mpr h
        simp [List.filter, List.lookup, hb, ih]
      · have hb0 : (k0 == k) = false := beq_eq_false_iff_ne.mpr h0
        cases hb1 : k' == k0 <;> simp [List.filter, hb0, List.lookup, hb1, ih]

theorem aggHas_iff {st : CState} {k : String} {q v : PV} :
    aggHas st k q v = true ↔
    ∃ d rest, st.aggs.lookup k = some (d :: rest) ∧ v ∈ ddGet d q := by
  rw [aggHas]
  cases hl : st.aggs.lookup k with
  | none => simp
  | some l =>
      cases l with
      | nil => simp
      | cons d rest =>
          simp only [decide_eq_true_eq]
          constructor
          · intro hv; exact ⟨d, rest, rfl, hv⟩
          · rintro ⟨d', rest', hd, hv⟩
            simp only [Option.some.injEq, List.cons.injEq] at hd
            rw [hd.1]
            exact hv

theorem setHead_spec {qid v : PV} {d : List (PV × List PV)}
    {rest2 : List (List (PV × List PV))} :
    ∀ (exIdx : Nat) (X : List (List (PV × List PV))) (hX : X = d :: rest2)
      (h2 : exIdx < X.length),
      ∃ d' rest', X.set exIdx (ddAppend (X.get ⟨exIdx, h2⟩) qid v) = d' :: rest' ∧
        ∀ q2 v2, v2 ∈ ddGet d q2 → v2 ∈ ddGet d' q2 := by
  intro exIdx X hX
  subst hX
  intro h2
  cases exIdx with
  | zero =>
      exact ⟨ddAppend d qid v, rest2, rfl, fun q2 v2 hm => mem_ddGet_ddAppend hm⟩
  | succ n =>
      exact ⟨d, rest2.set n (ddAppend (rest2.get ⟨n, by simpa using h2⟩) qid v), rfl,
        fun _ _ hm => hm⟩

theorem fieldStep_mono {exIdx : Nat} {qid : PV} {st st' : CState} {k : String} {v : PV}
    (h : fieldStep exIdx qid st k v = Except.ok st') :
    st'.ids = st.ids ∧
    (∀ k2 v2, st.scalars.lookup k2 = some v2 → st'.scalars.lookup k2 = some v2) ∧
    (∀ k2 q2 v2, aggHas st k2 q2 v2 = true → aggHas st' k2 q2 v2 = true) := by
  rw [fieldStep] at h
  by_cases hv : v.isAppend = true
  · rw [if_pos hv] at h
    by_cases hid : k = "id" ∨ (st.scalars.lookup k).isSome = true
    · rw [if_pos hid] at h
      simp at h
    · rw [if_neg hid] at h
      dsimp only at h
      by_cases h2 : exIdx <
          (if exIdx = ((st.aggs.lookup k).getD []).length
           then (st.aggs.lookup k).getD [] ++ [[]]
           else (st.aggs.lookup k).getD []).length
      · rw [dif_pos h2] at h
        simp only [Except.ok.injEq] at h
        subst h
        refine ⟨rfl, fun k2 v2 hk2 => hk2, ?_⟩
        intro k2 q2 v2 hagg
        by_cases hk2 : k2 = k
        · subst hk2
          obtain ⟨d, rest, hl, hvm⟩ := aggHas_iff.mp hagg
          rw [aggHas_iff]
          simp only [dictSet_lookup_self]
          have hX : (if exIdx = ((st.aggs.lookup k2).getD []).length
              then (st.aggs.lookup k2).getD [] ++ [[]]
              else (st.aggs.lookup k2).getD []) =
              d :: (if exIdx = (d :: rest).length then rest ++ [[]] else rest) := by
            rw [hl]
            simp only [Option.getD_some]
            by_cases hx : exIdx = (d :: rest).length
            · rw [if_pos hx, if_pos hx]
              rfl
            · rw [if_neg hx, if_neg hx]
          obtain ⟨d', rest', hset, hsub⟩ := setHead_spec exIdx _ hX h2
          exact ⟨d', rest', congrArg some hset, hsub q2 v2 hvm⟩
        · rw [aggHas_iff] at hagg ⊢
          rw [dictSet_lookup_ne _ _ _ _ hk2]
          exact hagg
      · rw [dif_neg h2] at h
        simp at h
  · rw [if_neg hv] at h
    by_cases hid : k = "id"
    · rw [if_pos hid] at h
      simp at h
    · rw [if_neg hid] at h
      cases hl : st.scalars.lookup k with
      | some w =>
          rw [hl] at h
          dsimp only at h
          by_cases hw : w = v
          · rw [if_pos hw] at h
            simp only [Except.ok.injEq] at h
            subst h
            exact ⟨rfl, fun _ _ hk => hk, fun _ _ _ ha => ha⟩
          · rw [if_neg hw] at h
            simp at h
      | none =>
          rw [hl] at h
          dsimp only at h
          by_cases ha : (st.aggs.lookup k).isSome = true
          · rw [if_pos ha] at h
            simp at h
          · rw [if_neg ha] at h
            simp only [Except.ok.injEq] at h
            subst h
            refine ⟨rfl, ?_, fun _ _ _ hg => hg⟩
            intro k2 v2 hk2
            have hne : k2 ≠ k := by
              intro he
              rw [he, hl] at hk2
              exact Option.noConfusion hk2
            rw [dictSet_lookup_ne _ _ _ _ hne]
            exact hk2

theorem setZero_spec {qid v : PV} :
    ∀ (X : List (List (PV × List PV))) (h2 : 0 < X.length),
      ∃ d' rest', X.set 0 (ddAppend (X.get ⟨0, h2⟩) qid v) = d' :: rest' ∧
        v ∈ ddGet d' qid := by
  intro X h2
  cases X with
  | nil => simp at h2
  | cons d rest =>
      refine ⟨ddAppend d qid v, rest, rfl, ?_⟩
      rw [ddGet_ddAppend_self]
      simp

theorem fieldStep_scalar_set {exIdx : Nat} {qid : PV} {st st' : CState} {k : String}
    {v : PV} (h : fieldStep exIdx qid st k v = Except.ok st')
    (hv : v.isAppend = false) :
    st'.scalars.lookup k = some v := by
  rw [fieldStep] at h
  rw [if_neg (by simp [hv])] at h
  by_cases hid : k = "id"
  · rw [if_pos hid] at h
    simp at h
  · rw [if_neg hid] at h
    cases hl : st.scalars.lookup k with
    | some w =>
        rw [hl] at h
        dsimp only at h
        by_cases hw : w = v
        · rw [if_pos hw] at h
          simp only [Except.ok.injEq] at h
          subst h
          rw [hl, hw]
        · rw [if_neg hw] at h
          simp at h
    | none =>
        rw [hl] at h
        dsimp only at h
        by_cases ha : (st.aggs.lookup k).isSome = true
        · rw [if_pos ha] at h
          simp at h
        · rw [if_neg ha] at h
          simp only [Except.ok.injEq] at h
          subst h
          exact dictSet_lookup_self _ _ _

theorem fieldStep_agg_added {qid : PV} {st st' : CState} {k : String} {v : PV}
    (h : fieldStep 0 qid st k v = Except.ok st') (hv : v.isAppend = true) :
    aggHas st' k qid v = true := by
  rw [fieldStep] at h
  rw [if_pos hv] at h
  by_cases hid : k = "id" ∨ (st.scalars.lookup k).isSome = true
  · rw [if_pos hid] at h
    simp at h
  · rw [if_neg hid] at h
    dsimp only at h
    by_cases h2 : 0 <
        (if 0 = ((st.aggs.lookup k).getD []).length
         then (st.aggs.lookup k).getD [] ++ [[]]
         else (st.aggs.lookup k).getD []).length
    · rw [dif_pos h2] at h
      simp only [Except.ok.injEq] at h
      subst h
      rw [aggHas_iff]
      simp only [dictSet_lookup_self]
      obtain ⟨d', rest', hset, hvm⟩ := setZero_spec _ h2
      exact ⟨d', rest', congrArg some hset, hvm⟩
    · rw [dif_neg h2] at h
      simp at h

theorem foldFields_mono {qid : PV} {i : Nat} :
    ∀ {fields : List (String × PV)} {st st' : CState},
      foldFields i qid st fields = Except.ok st' →
      st'.ids = st.ids ∧
      (∀ k2 v2, st.scalars.lookup k2 = some v2 → st'.scalars.lookup k2 = some v2) ∧
      (∀ k2 q2 v2, aggHas st k2 q2 v2 = true → aggHas st' k2 q2 v2 = true) := by
  intro fields
  induction fields with
  | nil =>
      intro st st' h
      simp only [foldFields, Except.ok.injEq] at h
      subst h
      exact ⟨rfl, fun _ _ hk => hk, fun _ _ _ ha => ha⟩
  | cons p rest ih =>
      intro st st' h
      obtain ⟨k0, v0⟩ := p
      rw [foldFields] at h
      cases hfs : fieldStep i qid st k0 v0 with
      | error e => rw [hfs] at h; simp [Bind.bind, Except.bind] at h
      | ok st1 =>
          rw [hfs] at h
          simp only [Bind.bind, Except.bind] at h
          obtain ⟨hi1, hs1, ha1⟩ := fieldStep_mono hfs
          obtain ⟨hi2, hs2, ha2⟩ := ih h
          exact ⟨hi2.trans hi1, fun k2 v2 hk => hs2 k2 v2 (hs1 k2 v2 hk),
            fun k2 q2 v2 hg => ha2 k2 q2 v2 (ha1 k2 q2 v2 hg)⟩

theorem foldFields_contrib {qid : PV} :
    ∀ {fields : List (String × PV)} {st st' : CState},
      foldFields 0 qid st fields = Except.ok st' →
      ∀ k v, (k, v) ∈ fields →
        (v.isAppend = false → st'.scalars.lookup k = some v) ∧
        (v.isAppend = true → aggHas st' k qid v = true) := by
  intro fields
  induction fields with
  | nil =>
      intro st st' h k v hm
      simp at hm
  | cons p rest ih =>
      intro st st' h k v hm
      obtain ⟨k0, v0⟩ := p
      rw [foldFields] at h
      cases hfs : fieldStep 0 qid st k0 v0 with
      | error e => rw [hfs] at h; simp [Bind.bind, Except.bind] at h
      | ok st1 =>
          rw [hfs] at h
          simp only [Bind.bind, Except.bind] at h
          rcases List.mem_cons.mp hm with heq | hm'
          · have hk : k = k0 := congrArg Prod.fst heq
            have hv : v = v0 := congrArg Prod.snd heq
            subst hk
            subst hv
            obtain ⟨_, hs2, ha2⟩ := foldFields_mono h
            constructor
            · intro hvf
              exact hs2 k v (fieldStep_scalar_set hfs hvf)
            · intro hvt
              exact ha2 k qid v (fieldStep_agg_added hfs hvt)
          · exact ih h k v hm'

theorem concatStep_mono {st st' : CState} {d : List (String × PV)}
    (h : concatStep st d = Except.ok st') :
    (∀ k2 v2, st.scalars.lookup k2 = some v2 → st'.scalars.lookup k2 = some v2) ∧
    (∀ k2 q2 v2, aggHas st k2 q2 v2 = true → aggHas st' k2 q2 v2 = true) := by
  rw [concatStep] at h
  cases hp1 : pyPop "id" d with
  | error e => rw [hp1] at h; simp [Bind.bind, Except.bind] at h
  | ok pr1 =>
      rw [hp1] at h
      obtain ⟨exid, r1⟩ := pr1
      simp only [Bind.bind, Except.bind] at h
      cases hp2 : pyPop "rollout" r1 with
      | error e => rw [hp2] at h; simp at h
      | ok pr2 =>
          rw [hp2] at h
          obtain ⟨qid, r2⟩ := pr2
          dsimp only at h
          obtain ⟨_, hs, ha⟩ := foldFields_mono h
          exact ⟨hs, ha⟩

theorem concatStep_spec {st st' : CState} {d : List (String × PV)} {E : PV}
    (h : concatStep st d = Except.ok st')
    (hid : d.lookup "id" = some E)
    (hids : st.ids = [] ∨ st.ids = [E]) :
    st'.ids = [E] ∧
    ∀ k v, (k, v) ∈ d → k ≠ "id" → k ≠ "rollout" →
      (v.isAppend = false → st'.scalars.lookup k = some v) ∧
      (v.isAppend = true → ∀ q, d.lookup "rollout" = some q →
        aggHas st' k q v = true) := by
  rw [concatStep] at h
  have hp1 : pyPop "id" d =
      Except.ok (E, d.filter (fun p => !(p.1 == "id"))) := by
    rw [pyPop, hid]
  rw [hp1] at h
  simp only [Bind.bind, Except.bind] at h
  cases hp2 : pyPop "rollout" (d.filter (fun p => !(p.1 == "id"))) with
  | error e => rw [hp2] at h; simp at h
  | ok pr2 =>
      rw [hp2] at h
      obtain ⟨q0, r2⟩ := pr2
      dsimp only at h
      have hEids : (if E ∈ st.ids then st.ids else st.ids ++ [E]) = [E] := by
        rcases hids with h0 | h0 <;> simp [h0]
      rw [hEids, List.indexOf_cons_self] at h
      obtain ⟨hi, _, _⟩ := foldFields_mono h
      have hr2 : r2 = (d.filter (fun p => !(p.1 == "id"))).filter
          (fun p => !(p.1 == "rollout")) ∧
          (d.filter (fun p => !(p.1 == "id"))).lookup "rollout" = some q0 := by
        rw [pyPop] at hp2
        cases hlr : (d.filter (fun p => !(p.1 == "id"))).lookup "rollout" with
        | none => rw [hlr] at hp2; simp at hp2
        | some q1 =>
            rw [hlr] at hp2
            simp only [Except.ok.injEq, Prod.mk.injEq] at hp2
            exact ⟨hp2.2.symm, by rw [hp2.1]⟩
      refine ⟨hi, ?_⟩
      intro k v hm hk1 hk2
      have hm1 : (k, v) ∈ d.filter (fun p => !(p.1 == "id")) :=
        List.mem_filter.mpr ⟨hm, by simp [hk1]⟩
      have hm2 : (k, v) ∈ r2 := by
        rw [hr2.1]
        exact List.mem_filter.mpr ⟨hm1, by simp [hk2]⟩
      have hcontrib := foldFields_contrib h k v hm2
      refine ⟨hcontrib.1, ?_⟩
      intro hvt q hq
      have hq0 : q = q0 := by
        have h5 := hr2.2
        rw [lookup_filter_ne d "id" "rollout" (by decide), hq] at h5
        simpa using h5
      rw [hq0]
      exact hcontrib.2 hvt

theorem concatFold_mono :
    ∀ {evals : List (List (String × PV))} {st st' : CState},
      concatFold st evals = Except.ok st' →
      (∀ k2 v2, st.scalars.lookup k2 = some v2 → st'.scalars.lookup k2 = some v2) ∧
      (∀ k2 q2 v2, aggHas st k2 q2 v2 = true → aggHas st' k2 q2 v2 = true) := by
  intro evals
  induction evals with
  | nil =>
      intro st st' h
      simp only [concatFold, Except.ok.injEq] at h
      subst h
      exact ⟨fun _ _ hk => hk, fun _ _ _ ha => ha⟩
  | cons d ds ih =>
      intro st st' h
      rw [concatFold] at h
      cases hcs : concatStep st d with
      | error e => rw [hcs] at h; simp [Bind.bind, Except.bind] at h
      | ok st1 =>
          rw [hcs] at h
          simp only [Bind.bind, Except.bind] at h
          obtain ⟨hs1, ha1⟩ := concatStep_mono hcs
          obtain ⟨hs2, ha2⟩ := ih h
          exact ⟨fun k2 v2 hk => hs2 k2 v2 (hs1 k2 v2 hk),
            fun k2 q2 v2 hg => ha2 k2 q2 v2 (ha1 k2 q2 v2 hg)⟩

theorem concatFold_spec {E : PV} :
    ∀ {evals : List (List (String × PV))} {st r : CState},
      (∀ d ∈ evals, d.lookup "id" = some E) →
      (st.ids = [] ∨ st.ids = [E]) →
      concatFold st evals = Except.ok r →
      ∀ d ∈ evals, ∀ k v, (k, v) ∈ d → k ≠ "id" → k ≠ "rollout" →
        (v.isAppend = false → r.scalars.lookup k = some v) ∧
        (v.isAppend = true → ∀ q, d.lookup "rollout" = some q →
          aggHas r k q v = true) := by
  intro evals
  induction evals with
  | nil =>
      intro st r _ _ _ d hd
      simp at hd
  | cons d0 ds ih =>
      intro st r hall hids h
      rw [concatFold] at h
      cases hcs : concatStep st d0 with
      | error e => rw [hcs] at h; simp [Bind.bind, Except.bind] at h
      | ok st1 =>
          rw [hcs] at h
          simp only [Bind.bind, Except.bind] at h
          obtain ⟨hids1, hcontrib⟩ :=
            concatStep_spec hcs (hall d0 (List.mem_cons_self _ _)) hids
          intro d hd k v hm hk1 hk2
          rcases List.mem_cons.mp hd with rfl | hd'
          · obtain ⟨hs2, ha2⟩ := concatFold_mono h
            have hc := hcontrib k v hm hk1 hk2
            refine ⟨fun hvf => hs2 k v (hc.1 hvf), ?_⟩
            intro hvt q hq
            exact ha2 k q v (hc.2 hvt q hq)
          · exact ih (fun d2 hd2 => hall d2 (List.mem_cons_of_mem _ hd2))
              (Or.inr hids1) h d hd' k v hm hk1 hk2

/-- C8: folding rollout dictionaries that share one experiment id — when
the merge succeeds, every scalar field of every rollout equals the stored
aggregate scalar (so any two rollouts disagreeing on a scalar cannot both
have been merged), and every list- or mapping-valued field of every rollout
is present in the aggregate under that rollout's rollout id; and whenever
two rollouts do carry different values for the same scalar field, `concat`
raises a hard error. -/
theorem claim_C8 (evals : List (List (String × PV))) (E : PV)
    (hall : ∀ d ∈ evals, d.lookup "id" = some E) :
    (∀ r, concat evals = Except.ok r →
      ∀ d ∈ evals, ∀ k v, (k, v) ∈ d → k ≠ "id" → k ≠ "rollout" →
        (v.isAppend = false → r.scalars.lookup k = some v) ∧
        (v.isAppend = true → ∀ q, d.lookup "rollout" = some q →
          aggHas r k q v = true)) ∧
    (∀ d1 ∈ evals, ∀ d2 ∈ evals, ∀ k v1 v2, (k, v1) ∈ d1 → (k, v2) ∈ d2 →
      k ≠ "id" → k ≠ "rollout" → v1.isAppend = false → v2.isAppend = false →
      v1 ≠ v2 → ∃ msg, concat evals = Except.error msg) := by
  have hok : ∀ r, concat evals = Except.ok r →
      ∀ d ∈ evals, ∀ k v, (k, v) ∈ d → k ≠ "id" → k ≠ "rollout" →
        (v.isAppend = false → r.scalars.lookup k = some v) ∧
        (v.isAppend = true → ∀ q, d.lookup "rollout" = some q →
          aggHas r k q v = true) := by
    intro r hr
    exact concatFold_spec hall (Or.inl rfl) hr
  refine ⟨hok, ?_⟩
  intro d1 hd1 d2 hd2 k v1 v2 hm1 hm2 hk1 hk2 hv1 hv2 hne
  cases hc : concat evals with
  | ok r =>
      exfalso
      have h1 := (hok r hc d1 hd1 k v1 hm1 hk1 hk2).1 hv1
      have h2 := (hok r hc d2 hd2 k v2 hm2 hk1 hk2).1 hv2
      rw [h1] at h2
      injection h2 with h3
      exact hne h3
  | error msg => exact ⟨msg, rfl⟩

/-- Witness for C8 at concrete batches: the merge of `evalsC8` succeeds and
holds the shared scalar and both rollouts' list contributions; the batch
with differing `cycle` values raises. -/
theorem claim_C8_witness :
    (∀ d ∈ evalsC8, d.lookup "id" = some (PV.s "x")) ∧
    (∀ r, concat evalsC8 = Except.ok r →
      ∀ d ∈ evalsC8, ∀ k v, (k, v) ∈ d → k ≠ "id" → k ≠ "rollout" →
        (v.isAppend = false → r.scalars.lookup k = some v) ∧
        (v.isAppend = true → ∀ q, d.lookup "rollout" = some q →
          aggHas r k q v = true)) ∧
    concat evalsC8 = Except.ok rC8 ∧
    rC8.scalars.lookup "cycle" = some (PV.i 60) ∧
    aggHas rC8 "rewards" (PV.i 0) (PV.lst 1) = true ∧
    aggHas rC8 "rewards" (PV.i 1) (PV.lst 2) = true ∧
    (∃ msg, concat evalsC8bad = Except.error msg) :=
  ⟨by decide,
   (claim_C8 evalsC8 (PV.s "x") (by decide)).1,
   rfl, by decide, by decide, by decide,
   (claim_C8 evalsC8bad (PV.s "y") (by decide)).2 evalC8c (by decide) evalC8d
     (by decide) "cycle" (PV.i 60) (PV.i 61) (by decide) (by decide) (by decide)
     (by decide) (by decide) (by decide) (by decide)⟩
